import Mathlib

/-!
Verification development for the Schafkopf-Tracker repository.

The aggregation core of the application is shallowly embedded here:

* `getPointsDistribution`   — the rank-to-points lookup (Leaderboard.tsx / PlayerScoreChart.tsx);
* `accumScores`, `stableSort`, `rankedOf` — the per-session grouping, the
  ascending-numeric-key iteration order of a JS object (`Object.entries` on
  integer keys), and the stable descending sort of the session ranking;
* `processTable`, `accumulate`, `finalizeBoard`, `loadLeaderboardPure`
  — the leaderboard engine of the final page variant (semester windows,
  hardcoded Semester-3 offsets, Danilo removal, final sort);
* `loadLeaderboard` over a `Repo` of fallible queries — the same engine in
  the `Except` monad, mirroring the `if (error) throw` structure;
* `roundRecord`, `roundSum`, `roundIsInvalid`, `handleScoreUpdate`
  — the round validator and the unconditional score upsert (GameDetails.tsx);
* `processChartTable`, `loadChartDataPure` — the timeline builder
  (PlayerScoreChart with date window, the final chart variant).

Timestamps are embedded as `Nat` (the source compares ISO-8601 strings /
`Date` values, a total order that the encoding preserves).
-/

/-- A row of the `Players` table. -/
structure PlayerRow where
  id : Nat
  name : String
deriving DecidableEq, Repr

/-- A row of the `Tables` table (a game session). -/
structure TableRow where
  id : Nat
  createdAt : Nat
  isOpen : Bool
  excludeFromOverall : Bool
deriving DecidableEq, Repr

/-- A row of the `Rounds` table. -/
structure RoundRow where
  id : Nat
  tableId : Nat
deriving DecidableEq, Repr

/-- A row of the `round_scores` table. -/
structure ScoreRow where
  roundId : Nat
  playerId : Nat
  rawScore : Int
deriving DecidableEq, Repr

/-- The database state visible to the aggregation code.  `tablePlayers` is
the session roster (`table_players`); the leaderboard never reads it. -/
structure DB where
  players : List PlayerRow
  tables : List TableRow
  rounds : List RoundRow
  scores : List ScoreRow
  tablePlayers : List (Nat × Nat)
deriving Repr

/-- `getPointsDistribution` from Leaderboard.tsx (identical copies exist in
PlayerScoreChart.tsx): the switch on the participant count. -/
def getPointsDistribution (playerCount : Nat) : List Int :=
  match playerCount with
  | 4 => [2, 1, -1, -2]
  | 5 => [2, 1, 0, -1, -2]
  | 6 => [3, 2, 1, -1, -2, -3]
  | _ => []

/-- Stable insertion of `x` into a list: `x` is placed before the first
element `y` with `before x y`.  With `before x y` meaning "`x` may precede
`y`", this reproduces the stability of the JS `Array.prototype.sort`. -/
def insertBy (before : α → α → Bool) (x : α) : List α → List α
  | [] => [x]
  | y :: ys => if before x y then x :: y :: ys else y :: insertBy before x ys

/-- Stable insertion sort; semantically identical to the (stable) JS sort
for any total preorder. -/
def stableSort (before : α → α → Bool) : List α → List α
  | [] => []
  | x :: xs => insertBy before x (stableSort before xs)

/-- One step of the `reduce` building `playerScores`:
`if (!acc[id]) acc[id] = 0; acc[id] += raw_score` — add to the existing
key or append a new one. -/
def accumStep (acc : List (Nat × Int)) (s : ScoreRow) : List (Nat × Int) :=
  if acc.any (fun kv => kv.1 == s.playerId) then
    acc.map (fun kv => if kv.1 == s.playerId then (kv.1, kv.2 + s.rawScore) else kv)
  else acc ++ [(s.playerId, s.rawScore)]

/-- The `reduce` building `playerScores`: sum `raw_score` per `player_id`,
keys in first-occurrence order (JS object insertion semantics for the
accumulator before iteration reorders integer keys). -/
def accumScores (scores : List ScoreRow) : List (Nat × Int) :=
  scores.foldl accumStep []

/-- `Object.entries` on an object with integer-like keys returns the
entries in ascending numeric key order. -/
def entriesNumericOrder (m : List (Nat × Int)) : List (Nat × Int) :=
  stableSort (fun a b => a.1 ≤ b.1) m

/-- `.sort((a, b) => b.total_raw_score - a.total_raw_score)`: stable sort
descending by the summed raw score. -/
def sortScoreDesc (l : List (Nat × Int)) : List (Nat × Int) :=
  stableSort (fun a b => b.2 ≤ a.2) l

/-- The session ranking computed from a list of score rows:
group-and-sum, entries in ascending key order, stable sort descending. -/
def rankedOf (scores : List ScoreRow) : List (Nat × Int) :=
  sortScoreDesc (entriesNumericOrder (accumScores scores))

/-- `Rounds` filtered by `table_id` (the per-table rounds query). -/
def roundsOfTable (db : DB) (tid : Nat) : List RoundRow :=
  db.rounds.filter (fun r => r.tableId == tid)

/-- `round_scores` filtered by `round_id in roundIds`. -/
def scoresOfRounds (db : DB) (roundIds : List Nat) : List ScoreRow :=
  db.scores.filter (fun s => roundIds.contains s.roundId)

/-- All score rows of one table's rounds. -/
def scoresOfTable (db : DB) (t : TableRow) : List ScoreRow :=
  scoresOfRounds db ((roundsOfTable db t.id).map (fun r => r.id))

/-- The ranking the aggregation code computes for one table. -/
def sessionSorted (db : DB) (t : TableRow) : List (Nat × Int) :=
  rankedOf (scoresOfTable db t)

/-- The distinct player ids that have a score row in the session, in
first-occurrence order (the keys of the `playerScores` accumulator). -/
def sessionParticipants (db : DB) (t : TableRow) : List Nat :=
  (accumScores (scoresOfTable db t)).map Prod.fst

/-- An entry of the leaderboard `playerMap` / result list. -/
structure LBEntry where
  id : Nat
  name : String
  totalScore : Int
  gamesPlayed : Nat
deriving DecidableEq, Repr

/-- The initial `playerMap`: every registered player with zero scores. -/
def initEntries (players : List PlayerRow) : List LBEntry :=
  players.map (fun p => { id := p.id, name := p.name, totalScore := 0, gamesPlayed := 0 })

/-- `List.enumFrom`-style indexing used to model `forEach((x, index) => …)`. -/
def enumIdx (n : Nat) : List α → List (Nat × α)
  | [] => []
  | a :: l => (n, a) :: enumIdx (n + 1) l

/-- The `sortedPlayers.forEach((player, index) => …)` body: award
`points[index] || 0` and one game to every map entry whose id matches. -/
def applyScores (es : List LBEntry) (scores : List ScoreRow) : List LBEntry :=
  let ranked := rankedOf scores
  let points := getPointsDistribution ranked.length
  (enumIdx 0 ranked).foldl
    (fun es2 ip =>
      es2.map (fun e =>
        if e.id == ip.2.1 then
          { e with totalScore := e.totalScore + points.getD ip.1 0,
                   gamesPlayed := e.gamesPlayed + 1 }
        else e))
    es

/-- One iteration of the `for (const table of tablesData)` loop:
skip when the table has no rounds, otherwise award the session points. -/
def processTable (db : DB) (es : List LBEntry) (t : TableRow) : List LBEntry :=
  let roundsData := roundsOfTable db t.id
  if roundsData.isEmpty then es
  else applyScores es (scoresOfRounds db (roundsData.map (fun r => r.id)))

/-- The row filter of the leaderboard's `Tables` query:
`exclude_from_overall = false`, `created_at` within the inclusive window,
and (unless ongoing games are included) `is_open = false`. -/
def tablePass (startDate endDate : Nat) (includeOngoing : Bool) (t : TableRow) : Bool :=
  t.excludeFromOverall == false &&
  startDate ≤ t.createdAt && t.createdAt ≤ endDate &&
  (includeOngoing || t.isOpen == false)

/-- The `Tables` query of the leaderboard. -/
def selectTables (db : DB) (startDate endDate : Nat) (includeOngoing : Bool) : List TableRow :=
  db.tables.filter (tablePass startDate endDate includeOngoing)

/-- A semester entry of the `SEMESTERS` constant (window bounds encoded as
order-preserving numeric timestamps). -/
structure Semester where
  id : String
  startDate : Nat
  endDate : Nat
deriving DecidableEq, Repr

/-- Semester 1 (Sep 2024 - March 2025). -/
def SEM1 : Semester := { id := "sem1", startDate := 202409010000, endDate := 202503312359 }

/-- Semester 2 (April 2025 - August 2025). -/
def SEM2 : Semester := { id := "sem2", startDate := 202504010000, endDate := 202508312359 }

/-- Semester 3 (Sep 2025 - Apr 2026), the window carrying the manual
offsets and the Danilo exclusion. -/
def SEM3 : Semester := { id := "sem3", startDate := 202509010000, endDate := 202604302359 }

/-- `SEMESTERS` from the final Leaderboard variant. -/
def SEMESTERS : List Semester := [SEM1, SEM2, SEM3]

/-- `SEMESTER_3_OFFSETS`: the hardcoded per-player point offsets. -/
def SEMESTER_3_OFFSETS : List (String × Int) :=
  [ ("Nikita", -2), ("Quentin", -1), ("Jost", 1), ("Finy", -4), ("Riccardo", 5),
    ("Emil", 0), ("Henri", 4), ("Timon", -2), ("Lukas", 1), ("Pfirrmann", -2) ]

/-- `SEMESTER_3_OFFSETS[player.name] || 0`. -/
def offsetOf (name : String) : Int :=
  match SEMESTER_3_OFFSETS.find? (fun kv => kv.1 == name) with
  | some kv => kv.2
  | none => 0

/-- Final stable sort of the standings, descending by `totalScore`. -/
def sortEntriesDesc (l : List LBEntry) : List LBEntry :=
  stableSort (fun a b => b.totalScore ≤ a.totalScore) l

/-- The `.map(offsets).filter(remove Danilo).sort(...)` tail of
`loadLeaderboard`: Semester-3 offsets, Semester-3 removal of Danilo,
descending sort. -/
def finalizeBoard (sem : Semester) (acc : List LBEntry) : List LBEntry :=
  sortEntriesDesc
    (((acc.map (fun e =>
        if sem.id == "sem3" then { e with totalScore := e.totalScore + offsetOf e.name }
        else e)).filter
      (fun e => !(sem.id == "sem3" && e.name == "Danilo"))))

/-- The accumulation stage of the leaderboard: fold the per-table awards
over the selected tables, starting from the zeroed player map. -/
def accumulate (db : DB) (sem : Semester) (includeOngoing : Bool) : List LBEntry :=
  (selectTables db sem.startDate sem.endDate includeOngoing).foldl
    (processTable db) (initEntries db.players)

/-- `loadLeaderboard` of the final Leaderboard variant, as a pure function
of the database snapshot (the fallible variant is `loadLeaderboard`
below). -/
def loadLeaderboardPure (db : DB) (sem : Semester) (includeOngoing : Bool) : List LBEntry :=
  finalizeBoard sem (accumulate db sem includeOngoing)

/-- C1: the points distribution is exactly the fixed table, length matches
the participant count on 4, 5 and 6, each row sums to zero, and every
other count yields the empty sequence. -/
theorem claim1_points_distribution :
    (∀ n : Nat, getPointsDistribution n =
      if n = 4 then [2, 1, -1, -2]
      else if n = 5 then [2, 1, 0, -1, -2]
      else if n = 6 then [3, 2, 1, -1, -2, -3]
      else []) ∧
    ((getPointsDistribution 4).length = 4 ∧ (getPointsDistribution 4).sum = 0) ∧
    ((getPointsDistribution 5).length = 5 ∧ (getPointsDistribution 5).sum = 0) ∧
    ((getPointsDistribution 6).length = 6 ∧ (getPointsDistribution 6).sum = 0) := by
  refine ⟨fun n => ?_, by decide, by decide, by decide⟩
  match n with
  | 0 | 1 | 2 | 3 | 4 | 5 | 6 => decide
  | (k + 7) => rfl

/-! ## Round validator and score upsert (GameDetails.tsx) -/

/-- JS object assignment `rec[k] = v`: overwrite in place (keeping the key
position) or append a new key. -/
def setNatKey (rec : List (Nat × Int)) (k : Nat) (v : Int) : List (Nat × Int) :=
  if rec.any (fun kv => kv.1 == k) then
    rec.map (fun kv => if kv.1 == k then (k, v) else kv)
  else rec ++ [(k, v)]

/-- The `row.scores` record of one round in `tableData`: the round's score
rows written into a player-id-keyed object (later rows overwrite). -/
def roundRecord (db : DB) (rid : Nat) : List (Nat × Int) :=
  (db.scores.filter (fun s => s.roundId == rid)).foldl
    (fun acc s => setNatKey acc s.playerId s.rawScore) []

/-- `Object.values(info.row.original.scores)` (integer keys iterate in
ascending numeric order). -/
def roundValues (db : DB) (rid : Nat) : List Int :=
  (entriesNumericOrder (roundRecord db rid)).map Prod.snd

/-- `const sum = Object.values(...).reduce((a, b) => a + b, 0)`. -/
def roundSum (db : DB) (rid : Nat) : Int :=
  (roundValues db rid).sum

/-- `const isInvalid = sum !== 0` in `roundNumberColumn`. -/
def roundIsInvalid (db : DB) (rid : Nat) : Bool :=
  roundSum db rid != 0

/-- Supabase `upsert` on the `(round_id, player_id)` natural key of
`round_scores`: overwrite the existing row or insert a new one. -/
def upsertScore (scores : List ScoreRow) (rid pid : Nat) (v : Int) : List ScoreRow :=
  if scores.any (fun s => s.roundId == rid && s.playerId == pid) then
    scores.map (fun s =>
      if s.roundId == rid && s.playerId == pid then { s with rawScore := v } else s)
  else scores ++ [{ roundId := rid, playerId := pid, rawScore := v }]

/-- `handleScoreUpdate` (GameDetails.tsx): the upsert is issued
unconditionally; no validity condition appears anywhere on the path. -/
def handleScoreUpdate (db : DB) (rid pid : Nat) (v : Int) : DB :=
  { db with scores := upsertScore db.scores rid pid v }

/-- The persisted raw score of a `(round, player)` pair. -/
def findRoundScore (db : DB) (rid pid : Nat) : Option Int :=
  (db.scores.find? (fun s => s.roundId == rid && s.playerId == pid)).map
    (fun s => s.rawScore)

/-! ## Concrete databases used by the scenario theorems -/

/-- Scenario A database: four players with ids in roster insertion order,
one closed in-window session, one round with raw scores 30, -10, -10, -10. -/
def exDB8 : DB :=
  { players := [⟨1, "P1"⟩, ⟨2, "P2"⟩, ⟨3, "P3"⟩, ⟨4, "P4"⟩],
    tables := [⟨1, 202509020000, false, false⟩],
    rounds := [⟨1, 1⟩],
    scores := [⟨1, 1, 30⟩, ⟨1, 2, -10⟩, ⟨1, 3, -10⟩, ⟨1, 4, -10⟩],
    tablePlayers := [(1, 1), (1, 2), (1, 3), (1, 4)] }

/-- C8: on Scenario A the session ranking is `[P1, P2, P3, P4]` — the
three-way tie among P2, P3, P4 broken by stable order — and the points
2, 1, -1, -2 are assigned positionally by the leaderboard accumulation. -/
theorem claim8_scenario_a :
    sessionSorted exDB8 ⟨1, 202509020000, false, false⟩
      = [(1, 30), (2, -10), (3, -10), (4, -10)] ∧
    accumulate exDB8 SEM3 false
      = [⟨1, "P1", 2, 1⟩, ⟨2, "P2", 1, 1⟩, ⟨3, "P3", -1, 1⟩, ⟨4, "P4", -2, 1⟩] := by
  constructor
  · rfl
  · rfl

/-! ## Structural lemmas about the stable sort -/

theorem insertBy_perm (before : α → α → Bool) (x : α) :
    ∀ l : List α, (insertBy before x l).Perm (x :: l)
  | [] => List.Perm.refl _
  | y :: ys => by
      unfold insertBy
      split
      · exact List.Perm.refl _
      · exact ((insertBy_perm before x ys).cons y).trans (List.Perm.swap x y ys)

theorem stableSort_perm (before : α → α → Bool) :
    ∀ l : List α, (stableSort before l).Perm l
  | [] => List.Perm.refl _
  | x :: xs => by
      unfold stableSort
      exact (insertBy_perm before x (stableSort before xs)).trans
        ((stableSort_perm before xs).cons x)

theorem stableSort_length (before : α → α → Bool) (l : List α) :
    (stableSort before l).length = l.length :=
  (stableSort_perm before l).length_eq

theorem stableSort_mem (before : α → α → Bool) (l : List α) (a : α) :
    a ∈ stableSort before l ↔ a ∈ l :=
  (stableSort_perm before l).mem_iff

/-- A stable sort leaves an already-sorted list unchanged. -/
theorem stableSort_of_pairwise (before : α → α → Bool) :
    ∀ l : List α, l.Pairwise (fun a b => before a b = true) → stableSort before l = l
  | [], _ => rfl
  | x :: xs, h => by
      unfold stableSort
      rw [stableSort_of_pairwise before xs (List.Pairwise.of_cons h)]
      cases xs with
      | nil => rfl
      | cons y ys =>
          unfold insertBy
          rw [if_pos ((List.pairwise_cons.mp h).1 y (List.mem_cons_self y ys))]

/-! ## Keys of the per-session accumulator -/

theorem accumStep_keys (acc : List (Nat × Int)) (s : ScoreRow) :
    (accumStep acc s).map Prod.fst =
      if acc.any (fun kv => kv.1 == s.playerId) then acc.map Prod.fst
      else acc.map Prod.fst ++ [s.playerId] := by
  unfold accumStep
  by_cases hc : acc.any (fun kv => kv.1 == s.playerId) = true
  · rw [if_pos hc, if_pos hc, List.map_map]
    apply List.map_congr_left
    intro kv _
    simp only [Function.comp_apply]
    split <;> rfl
  · rw [if_neg hc, if_neg hc, List.map_append]
    rfl

theorem any_key_iff (acc : List (Nat × Int)) (k : Nat) :
    acc.any (fun kv => kv.1 == k) = true ↔ k ∈ acc.map Prod.fst := by
  simp [List.any_eq_true, List.mem_map, beq_iff_eq]

theorem accumScores_foldl_keys :
    ∀ (scores : List ScoreRow) (acc : List (Nat × Int)),
      (acc.map Prod.fst).Nodup →
      ((scores.foldl accumStep acc).map Prod.fst).Nodup ∧
      (∀ pid, pid ∈ (scores.foldl accumStep acc).map Prod.fst ↔
        pid ∈ acc.map Prod.fst ∨ pid ∈ scores.map (fun s => s.playerId))
  | [], acc, h => by simp [h]
  | s :: rest, acc, h => by
      rw [List.foldl_cons]
      by_cases hmem : acc.any (fun kv => kv.1 == s.playerId) = true
      · have hkeys : (accumStep acc s).map Prod.fst = acc.map Prod.fst := by
          rw [accumStep_keys, if_pos hmem]
        have ih := accumScores_foldl_keys rest (accumStep acc s) (by rw [hkeys]; exact h)
        refine ⟨ih.1, fun pid => ?_⟩
        rw [ih.2 pid, hkeys]
        have hsp : s.playerId ∈ acc.map Prod.fst := (any_key_iff acc s.playerId).mp hmem
        simp only [List.map_cons, List.mem_cons]
        constructor
        · rintro (hl | hr)
          · exact Or.inl hl
          · exact Or.inr (Or.inr hr)
        · rintro (hl | he | hr)
          · exact Or.inl hl
          · exact Or.inl (by rw [he]; exact hsp)
          · exact Or.inr hr
      · have hnot : s.playerId ∉ acc.map Prod.fst := fun hc =>
          hmem ((any_key_iff acc s.playerId).mpr hc)
        have hkeys : (accumStep acc s).map Prod.fst = acc.map Prod.fst ++ [s.playerId] := by
          rw [accumStep_keys, if_neg hmem]
        have hnd : ((accumStep acc s).map Prod.fst).Nodup := by
          rw [hkeys]
          simp [List.nodup_append, h, hnot]
        have ih := accumScores_foldl_keys rest (accumStep acc s) hnd
        refine ⟨ih.1, fun pid => ?_⟩
        rw [ih.2 pid, hkeys]
        simp only [List.mem_append, List.mem_singleton, List.map_cons, List.mem_cons]
        tauto

/-- The keys of the per-session accumulator are distinct. -/
theorem accumScores_keys_nodup (scores : List ScoreRow) :
    ((accumScores scores).map Prod.fst).Nodup :=
  (accumScores_foldl_keys scores [] (by simp)).1

/-- A player id is a key of the accumulator iff it occurs in the score rows. -/
theorem accumScores_keys_mem (scores : List ScoreRow) (pid : Nat) :
    pid ∈ (accumScores scores).map Prod.fst ↔ pid ∈ scores.map (fun s => s.playerId) := by
  have h := (accumScores_foldl_keys scores [] (by simp)).2 pid
  simpa [accumScores] using h

/-! ## Per-entry characterization of the session award -/

/-- The award the `forEach` hands to a fixed player id: the points value at
the id's position in the ranking, `0` when the id is not ranked. -/
def entryAward (pid : Nat) (points : List Int) : Nat → List (Nat × Int) → Int
  | _, [] => 0
  | n, q :: rest => if pid = q.1 then points.getD n 0 else entryAward pid points (n + 1) rest

theorem entryAward_not_mem (pid : Nat) (points : List Int) :
    ∀ (n : Nat) (ranked : List (Nat × Int)), pid ∉ ranked.map Prod.fst →
      entryAward pid points n ranked = 0
  | _, [], _ => rfl
  | n, q :: rest, h => by
      have h1 : pid ≠ q.1 := fun hc => h (by rw [hc]; exact List.mem_cons_self _ _)
      have h2 : pid ∉ rest.map Prod.fst := fun hc => h (List.mem_cons_of_mem _ hc)
      unfold entryAward
      rw [if_neg h1, entryAward_not_mem pid points (n + 1) rest h2]

/-- A fold that maps the whole accumulator at every step is a single map
of per-element folds. -/
theorem foldl_map_eq_map_foldl (g : β → α → α) :
    ∀ (l : List β) (es : List α),
      l.foldl (fun es2 x => es2.map (g x)) es
        = es.map (fun e => l.foldl (fun a x => g x a) e)
  | [], es => by simp
  | x :: xs, es => by
      rw [List.foldl_cons, foldl_map_eq_map_foldl g xs (es.map (g x)), List.map_map]
      rfl

/-- Per-entry effect of the `forEach` awarding points over the ranking:
one award at the entry's ranking position and one game increment when the
entry's id is ranked, provided the ranked ids are distinct. -/
theorem entry_fold_updates (points : List Int) :
    ∀ (ranked : List (Nat × Int)) (n : Nat) (e : LBEntry),
      (ranked.map Prod.fst).Nodup →
      (enumIdx n ranked).foldl
        (fun a ip =>
          if a.id == ip.2.1 then
            { a with totalScore := a.totalScore + points.getD ip.1 0,
                     gamesPlayed := a.gamesPlayed + 1 }
          else a) e
      = { e with totalScore := e.totalScore + entryAward e.id points n ranked,
                 gamesPlayed := e.gamesPlayed +
                   (if ranked.any (fun q => q.1 == e.id) then 1 else 0) }
  | [], n, e, _ => by simp [enumIdx, entryAward]
  | q :: rest, n, e, hnd => by
      obtain ⟨hq, hrest⟩ := List.nodup_cons.mp hnd
      rw [show enumIdx n (q :: rest) = (n, q) :: enumIdx (n + 1) rest from rfl,
        List.foldl_cons]
      by_cases h : e.id = q.1
      · have hnot : e.id ∉ rest.map Prod.fst := by rw [h]; exact hq
        have hany : (rest.any fun p => p.1 == e.id) = false := by
          rw [List.any_eq_false]
          intro x hx
          simp only [beq_iff_eq]
          intro hxe
          exact hnot (hxe ▸ List.mem_map_of_mem Prod.fst hx)
        have hstep : (if e.id == (n, q).2.1 then
              { e with totalScore := e.totalScore + points.getD (n, q).1 0,
                       gamesPlayed := e.gamesPlayed + 1 }
            else e)
            = { e with totalScore := e.totalScore + points.getD n 0,
                       gamesPlayed := e.gamesPlayed + 1 } := by
          rw [if_pos (beq_iff_eq.mpr h)]
        rw [hstep, entry_fold_updates points rest (n + 1) _ hrest,
          entryAward_not_mem e.id points (n + 1) rest hnot]
        unfold entryAward
        rw [if_pos h]
        simp [List.any_cons, beq_iff_eq, h.symm, hany]
      · have hstep : (if e.id == (n, q).2.1 then
              { e with totalScore := e.totalScore + points.getD (n, q).1 0,
                       gamesPlayed := e.gamesPlayed + 1 }
            else e) = e := by
          rw [if_neg]
          simp only [beq_iff_eq]
          exact h
        rw [hstep, entry_fold_updates points rest (n + 1) e hrest,
          show entryAward e.id points n (q :: rest)
            = if e.id = q.1 then points.getD n 0 else entryAward e.id points (n + 1) rest
            from rfl,
          if_neg h]
        have : (q.1 == e.id) = false := by
          simp only [beq_eq_false_iff_ne, ne_eq]
          exact fun hc => h hc.symm
        rw [List.any_cons, this, Bool.false_or]

/-- The ranking is a permutation of the accumulator (the two sorts only
reorder). -/
theorem rankedOf_perm (scores : List ScoreRow) :
    (rankedOf scores).Perm (accumScores scores) :=
  (stableSort_perm _ _).trans (stableSort_perm _ _)

/-- The ranked ids are distinct. -/
theorem rankedOf_keys_nodup (scores : List ScoreRow) :
    ((rankedOf scores).map Prod.fst).Nodup :=
  (((rankedOf_perm scores).map Prod.fst).symm).nodup (accumScores_keys_nodup scores)

/-- The ranking has one entry per distinct scored player id. -/
theorem rankedOf_length (scores : List ScoreRow) :
    (rankedOf scores).length = (accumScores scores).length :=
  (rankedOf_perm scores).length_eq

/-- An id is ranked iff it is a key of the accumulator. -/
theorem rankedOf_keys_mem (scores : List ScoreRow) (pid : Nat) :
    pid ∈ (rankedOf scores).map Prod.fst ↔ pid ∈ (accumScores scores).map Prod.fst :=
  ((rankedOf_perm scores).map Prod.fst).mem_iff

/-- The per-session award of one table to one player id. -/
def sessionAward (db : DB) (t : TableRow) (pid : Nat) : Int :=
  entryAward pid (getPointsDistribution (sessionSorted db t).length) 0 (sessionSorted db t)

/-- The effect of one table of the leaderboard loop on a single map entry. -/
def stepEntry (db : DB) (t : TableRow) (e : LBEntry) : LBEntry :=
  if (roundsOfTable db t.id).isEmpty then e
  else
    { e with totalScore := e.totalScore + sessionAward db t e.id,
             gamesPlayed := e.gamesPlayed +
               (if (sessionSorted db t).any (fun q => q.1 == e.id) then 1 else 0) }

theorem applyScores_eq_map (es : List LBEntry) (scores : List ScoreRow) :
    applyScores es scores = es.map (fun e =>
      (enumIdx 0 (rankedOf scores)).foldl
        (fun a ip =>
          if a.id == ip.2.1 then
            { a with totalScore :=
                a.totalScore + (getPointsDistribution (rankedOf scores).length).getD ip.1 0,
                     gamesPlayed := a.gamesPlayed + 1 }
          else a) e) :=
  by
  unfold applyScores
  exact foldl_map_eq_map_foldl _ _ _

/-- `processTable` acts entrywise: every entry is transformed by
`stepEntry`, independently of the rest of the map. -/
theorem processTable_eq_map (db : DB) (es : List LBEntry) (t : TableRow) :
    processTable db es t = es.map (stepEntry db t) := by
  unfold processTable
  by_cases h : (roundsOfTable db t.id).isEmpty
  · rw [if_pos h]
    have : es.map (stepEntry db t) = es.map id := by
      apply List.map_congr_left
      intro e _
      unfold stepEntry
      rw [if_pos h]
      rfl
    rw [this, List.map_id]
  · rw [if_neg h, applyScores_eq_map]
    apply List.map_congr_left
    intro e _
    rw [entry_fold_updates _ _ 0 e (rankedOf_keys_nodup _)]
    unfold stepEntry
    rw [if_neg h]
    rfl

theorem processTable_getElem? (db : DB) (es : List LBEntry) (t : TableRow) (i : Nat) :
    (processTable db es t)[i]? = es[i]?.map (stepEntry db t) := by
  rw [processTable_eq_map, List.getElem?_map]

theorem stepEntry_id (db : DB) (t : TableRow) (e : LBEntry) :
    (stepEntry db t e).id = e.id := by
  unfold stepEntry
  split <;> rfl

theorem stepEntry_name (db : DB) (t : TableRow) (e : LBEntry) :
    (stepEntry db t e).name = e.name := by
  unfold stepEntry
  split <;> rfl

theorem stepEntry_games (db : DB) (t : TableRow) (e : LBEntry) :
    (stepEntry db t e).gamesPlayed = e.gamesPlayed +
      (if (!(roundsOfTable db t.id).isEmpty &&
            (sessionSorted db t).any (fun q => q.1 == e.id)) then 1 else 0) := by
  unfold stepEntry
  by_cases h : (roundsOfTable db t.id).isEmpty
  · rw [if_pos h]
    simp [h]
  · rw [if_neg h]
    have h2 : (roundsOfTable db t.id).isEmpty = false := by
      cases hh : (roundsOfTable db t.id).isEmpty
      · rfl
      · exact absurd hh h
    rw [h2, Bool.not_false, Bool.true_and]

theorem stepEntry_total (db : DB) (t : TableRow) (e : LBEntry) :
    (stepEntry db t e).totalScore = e.totalScore +
      (if (roundsOfTable db t.id).isEmpty then 0 else sessionAward db t e.id) := by
  unfold stepEntry
  by_cases h : (roundsOfTable db t.id).isEmpty
  · rw [if_pos h, if_pos h, add_zero]
  · rw [if_neg h, if_neg h]

/-- The ranking and the participant list have the same length. -/
theorem sessionSorted_length (db : DB) (t : TableRow) :
    (sessionSorted db t).length = (sessionParticipants db t).length := by
  unfold sessionSorted sessionParticipants
  rw [rankedOf_length, List.length_map]

/-- The `forEach` membership test agrees with session participation. -/
theorem sessionSorted_any_iff (db : DB) (t : TableRow) (pid : Nat) :
    ((sessionSorted db t).any (fun q => q.1 == pid) = true) ↔
      pid ∈ sessionParticipants db t := by
  rw [any_key_iff]
  exact rankedOf_keys_mem (scoresOfTable db t) pid

/-- A player id participates iff it occurs among the session's score rows. -/
theorem sessionParticipants_mem (db : DB) (t : TableRow) (pid : Nat) :
    pid ∈ sessionParticipants db t ↔ pid ∈ (scoresOfTable db t).map (fun s => s.playerId) :=
  accumScores_keys_mem (scoresOfTable db t) pid

theorem sessionParticipants_nodup (db : DB) (t : TableRow) :
    (sessionParticipants db t).Nodup :=
  accumScores_keys_nodup (scoresOfTable db t)

/-- The whole leaderboard loop acts entrywise on the player map. -/
theorem foldl_processTable_eq_map (db : DB) :
    ∀ (ts : List TableRow) (es : List LBEntry),
      ts.foldl (processTable db) es
        = es.map (fun e => ts.foldl (fun a t => stepEntry db t a) e)
  | [], es => by simp
  | t :: ts, es => by
      rw [List.foldl_cons, processTable_eq_map,
        foldl_processTable_eq_map db ts (es.map (stepEntry db t)), List.map_map]
      rfl

theorem foldl_stepEntry_id (db : DB) :
    ∀ (ts : List TableRow) (e : LBEntry),
      (ts.foldl (fun a t => stepEntry db t a) e).id = e.id
  | [], _ => rfl
  | t :: ts, e => by
      rw [List.foldl_cons, foldl_stepEntry_id db ts (stepEntry db t e), stepEntry_id]

theorem foldl_stepEntry_name (db : DB) :
    ∀ (ts : List TableRow) (e : LBEntry),
      (ts.foldl (fun a t => stepEntry db t a) e).name = e.name
  | [], _ => rfl
  | t :: ts, e => by
      rw [List.foldl_cons, foldl_stepEntry_name db ts (stepEntry db t e), stepEntry_name]

/-- Games played accumulate as a count of the tables in which the entry's
id is ranked (and that have at least one round). -/
theorem foldl_stepEntry_games (db : DB) :
    ∀ (ts : List TableRow) (e : LBEntry),
      (ts.foldl (fun a t => stepEntry db t a) e).gamesPlayed
        = e.gamesPlayed + ts.countP (fun t =>
            !(roundsOfTable db t.id).isEmpty &&
            (sessionSorted db t).any (fun q => q.1 == e.id))
  | [], e => by simp
  | t :: ts, e => by
      rw [List.foldl_cons, foldl_stepEntry_games db ts (stepEntry db t e),
        stepEntry_games, stepEntry_id, List.countP_cons]
      cases hc : (!(roundsOfTable db t.id).isEmpty &&
          (sessionSorted db t).any fun q => q.1 == e.id) <;> (simp [hc]; try omega)

/-! ## Zero-sum of a session's awards (claim C2 machinery) -/

theorem sum_map_add (l : List α) (f g : α → Int) :
    (l.map (fun a => f a + g a)).sum = (l.map f).sum + (l.map g).sum := by
  induction l with
  | nil => simp
  | cons a l ih =>
      simp only [List.map_cons, List.sum_cons, ih]
      ring

theorem sum_map_indicator (a : Nat) (c : Int) :
    ∀ ids : List Nat, ids.Nodup → a ∈ ids →
      (ids.map (fun pid => if pid = a then c else 0)).sum = c
  | [], _, hm => absurd hm (List.not_mem_nil a)
  | x :: ids, hnd, hm => by
      obtain ⟨hx, hnd2⟩ := List.nodup_cons.mp hnd
      simp only [List.map_cons, List.sum_cons]
      by_cases h : x = a
      · rw [if_pos h]
        have : a ∉ ids := h ▸ hx
        have hz : (ids.map (fun pid => if pid = a then c else 0)).sum = 0 := by
          have : ids.map (fun pid => if pid = a then c else 0) = ids.map (fun _ => 0) := by
            apply List.map_congr_left
            intro pid hpid
            rw [if_neg]
            intro hc
            exact this (hc ▸ hpid)
          rw [this]
          simp
        rw [hz, add_zero]
      · rw [if_neg h, zero_add]
        have hm2 : a ∈ ids := by
          cases List.mem_cons.mp hm with
          | inl hh => exact absurd hh.symm h
          | inr hh => exact hh
        exact sum_map_indicator a c ids hnd2 hm2

theorem entryAward_cons_split (pid : Nat) (points : List Int) (n : Nat)
    (q : Nat × Int) (rest : List (Nat × Int)) (hq : q.1 ∉ rest.map Prod.fst) :
    entryAward pid points n (q :: rest)
      = (if pid = q.1 then points.getD n 0 else 0) + entryAward pid points (n + 1) rest := by
  rw [show entryAward pid points n (q :: rest)
      = if pid = q.1 then points.getD n 0 else entryAward pid points (n + 1) rest from rfl]
  by_cases h : pid = q.1
  · rw [if_pos h, if_pos h, entryAward_not_mem pid points (n + 1) rest (h ▸ hq), add_zero]
  · rw [if_neg h, if_neg h, zero_add]

theorem drop_take_sum_cons (points : List Int) (n len : Nat) :
    ((points.drop n).take (len + 1)).sum
      = points.getD n 0 + ((points.drop (n + 1)).take len).sum := by
  by_cases h : n < points.length
  · rw [List.drop_eq_getElem_cons h, List.take_succ_cons, List.sum_cons,
      List.getD_eq_getElem points 0 h]
  · have h1 : points.drop n = [] := List.drop_eq_nil_of_le (Nat.le_of_not_lt h)
    have h2 : points.drop (n + 1) = [] :=
      List.drop_eq_nil_of_le (Nat.le_succ_of_le (Nat.le_of_not_lt h))
    rw [h1, h2]
    simp [List.getD, List.getElem?_eq_none (Nat.le_of_not_lt h)]

/-- Summed over distinct ids covering the ranking, the awards add to
exactly the distributed points. -/
theorem sum_award_ids :
    ∀ (ranked : List (Nat × Int)) (points : List Int) (n : Nat) (ids : List Nat),
      ids.Nodup → (ranked.map Prod.fst).Nodup →
      (∀ pid ∈ ranked.map Prod.fst, pid ∈ ids) →
      (ids.map (fun pid => entryAward pid points n ranked)).sum
        = ((points.drop n).take ranked.length).sum
  | [], points, n, ids, _, _, _ => by
      have : ids.map (fun pid => entryAward pid points n []) = ids.map (fun _ => (0 : Int)) :=
        List.map_congr_left (fun pid _ => rfl)
      rw [this]
      simp
  | q :: rest, points, n, ids, hids, hnd, hcov => by
      obtain ⟨hq, hrest⟩ := List.nodup_cons.mp hnd
      have hsplit : ids.map (fun pid => entryAward pid points n (q :: rest))
          = ids.map (fun pid =>
              (if pid = q.1 then points.getD n 0 else 0) + entryAward pid points (n + 1) rest) :=
        List.map_congr_left (fun pid _ => entryAward_cons_split pid points n q rest hq)
      rw [hsplit, sum_map_add,
        sum_map_indicator q.1 (points.getD n 0) ids hids
          (hcov q.1 (List.mem_cons_self _ _)),
        sum_award_ids rest points (n + 1) ids hids hrest
          (fun pid hpid => hcov pid (List.mem_cons_of_mem _ hpid)),
        List.length_cons, drop_take_sum_cons]

/-- C2: when the session's participant count has a defined distribution,
the rank points a session adds to the player map sum to zero — the map's
total score is unchanged by processing the session (the ids in the map are
distinct and cover the session's scored ids, the invariants the real
player map enjoys). -/
theorem claim2_session_sum_zero (db : DB) (t : TableRow) (es : List LBEntry)
    (hnd : (es.map (fun e => e.id)).Nodup)
    (hcov : ∀ pid ∈ sessionParticipants db t, pid ∈ es.map (fun e => e.id))
    (hlen : (sessionParticipants db t).length = 4 ∨ (sessionParticipants db t).length = 5 ∨
      (sessionParticipants db t).length = 6) :
    ((processTable db es t).map (fun e => e.totalScore)).sum
      = (es.map (fun e => e.totalScore)).sum := by
  rw [processTable_eq_map, List.map_map]
  have hstep : es.map ((fun e => e.totalScore) ∘ stepEntry db t)
      = es.map (fun e => e.totalScore +
          (if (roundsOfTable db t.id).isEmpty then 0 else sessionAward db t e.id)) :=
    List.map_congr_left (fun e _ => stepEntry_total db t e)
  rw [hstep, sum_map_add]
  by_cases hins : (roundsOfTable db t.id).isEmpty
  · have hz : es.map (fun e =>
        if (roundsOfTable db t.id).isEmpty then (0 : Int) else sessionAward db t e.id)
        = es.map (fun _ => (0 : Int)) :=
      List.map_congr_left (fun e _ => if_pos hins)
    rw [hz]
    simp
  · have hmap : es.map (fun e =>
        if (roundsOfTable db t.id).isEmpty then (0 : Int) else sessionAward db t e.id)
        = es.map (fun e => sessionAward db t e.id) :=
      List.map_congr_left (fun e _ => if_neg hins)
    rw [hmap]
    have hcov2 : ∀ pid ∈ (sessionSorted db t).map Prod.fst, pid ∈ es.map (fun e => e.id) :=
      fun pid hpid => hcov pid ((rankedOf_keys_mem _ pid).mp hpid)
    have hsa : es.map (fun e => sessionAward db t e.id)
        = (es.map (fun e => e.id)).map (fun pid =>
            entryAward pid (getPointsDistribution (sessionSorted db t).length) 0
              (sessionSorted db t)) := by
      rw [List.map_map]
      rfl
    rw [hsa, sum_award_ids (sessionSorted db t) _ 0 (es.map (fun e => e.id)) hnd
      (rankedOf_keys_nodup _) hcov2]
    have hlen2 := sessionSorted_length db t
    rw [List.drop_zero]
    generalize hg : getPointsDistribution (sessionSorted db t).length = pts
    have hpts : pts.length = (sessionSorted db t).length ∧ pts.sum = 0 := by
      rw [← hg, hlen2]
      rcases hlen with h | h | h <;> rw [h] <;> exact ⟨rfl, by decide⟩
    rw [← hpts.1, List.take_length, hpts.2, add_zero]

/-- Witness for C2 at the Scenario A database. -/
theorem claim2_session_sum_zero_witness :
    ((processTable exDB8 (initEntries exDB8.players)
        ⟨1, 202509020000, false, false⟩).map (fun e => e.totalScore)).sum
      = ((initEntries exDB8.players).map (fun e => e.totalScore)).sum :=
  claim2_session_sum_zero exDB8 ⟨1, 202509020000, false, false⟩ (initEntries exDB8.players)
    (by decide) (by decide) (by decide)

theorem entryAward_points_nil (pid : Nat) :
    ∀ (n : Nat) (ranked : List (Nat × Int)), entryAward pid [] n ranked = 0
  | _, [] => rfl
  | n, q :: rest => by
      rw [show entryAward pid [] n (q :: rest)
          = if pid = q.1 then ([] : List Int).getD n 0 else entryAward pid [] (n + 1) rest
          from rfl]
      rw [entryAward_points_nil pid (n + 1) rest]
      split <;> rfl

theorem getPointsDistribution_eq_nil (n : Nat)
    (h : ¬(n = 4 ∨ n = 5 ∨ n = 6)) : getPointsDistribution n = [] := by
  match n, h with
  | 0, _ | 1, _ | 2, _ | 3, _ => rfl
  | 4, h => exact absurd (Or.inl rfl) h
  | 5, h => exact absurd (Or.inr (Or.inl rfl)) h
  | 6, h => exact absurd (Or.inr (Or.inr rfl)) h
  | (k + 7), _ => rfl

/-- The `forEach` membership test, as a decided participation proposition. -/
theorem sessionSorted_any_eq_decide (db : DB) (t : TableRow) (pid : Nat) :
    ((sessionSorted db t).any (fun q => q.1 == pid))
      = decide (pid ∈ sessionParticipants db t) := by
  by_cases h : pid ∈ sessionParticipants db t
  · rw [(sessionSorted_any_iff db t pid).mpr h, decide_eq_true h]
  · cases hb : (sessionSorted db t).any (fun q => q.1 == pid) with
    | false => rw [decide_eq_false h]
    | true => exact absurd ((sessionSorted_any_iff db t pid).mp hb) h

theorem initEntries_getElem? (players : List PlayerRow) (i : Nat) :
    (initEntries players)[i]? = (players[i]?).map
      (fun p => { id := p.id, name := p.name, totalScore := 0, gamesPlayed := 0 }) := by
  unfold initEntries
  rw [List.getElem?_map]

theorem accumulate_getElem? (db : DB) (sem : Semester) (inc : Bool) (i : Nat) :
    (accumulate db sem inc)[i]? = ((initEntries db.players)[i]?).map
      (fun e => (selectTables db sem.startDate sem.endDate inc).foldl
        (fun a t => stepEntry db t a) e) := by
  unfold accumulate
  rw [foldl_processTable_eq_map, List.getElem?_map]

/-- C5: gamesPlayed counts exactly the selected sessions with at least one
round in which the player has a score entry; a zero-round session is a
complete no-op; a session with an undefined distribution still counts one
game for each scored participant while adding zero points. -/
theorem claim5_games_played :
    (∀ (db : DB) (sem : Semester) (inc : Bool) (i : Nat) (p : PlayerRow),
      db.players[i]? = some p →
      ∃ e, (accumulate db sem inc)[i]? = some e ∧ e.id = p.id ∧ e.name = p.name ∧
        e.gamesPlayed = (selectTables db sem.startDate sem.endDate inc).countP
          (fun t => !(roundsOfTable db t.id).isEmpty &&
            decide (p.id ∈ sessionParticipants db t))) ∧
    (∀ (db : DB) (es : List LBEntry) (t : TableRow),
      roundsOfTable db t.id = [] → processTable db es t = es) ∧
    (∀ (db : DB) (t : TableRow) (es : List LBEntry) (i : Nat) (e : LBEntry),
      es[i]? = some e →
      roundsOfTable db t.id ≠ [] →
      ¬((sessionParticipants db t).length = 4 ∨ (sessionParticipants db t).length = 5 ∨
        (sessionParticipants db t).length = 6) →
      (processTable db es t)[i]? = some { e with gamesPlayed := e.gamesPlayed +
        (if e.id ∈ sessionParticipants db t then 1 else 0) }) := by
  refine ⟨?_, ?_, ?_⟩
  · intro db sem inc i p hp
    have h0 : (accumulate db sem inc)[i]?
        = some ((selectTables db sem.startDate sem.endDate inc).foldl
            (fun a t => stepEntry db t a)
            { id := p.id, name := p.name, totalScore := 0, gamesPlayed := 0 }) := by
      rw [accumulate_getElem?, initEntries_getElem?, hp]
      rfl
    refine ⟨_, h0, ?_, ?_, ?_⟩
    · exact foldl_stepEntry_id db _ _
    · exact foldl_stepEntry_name db _ _
    · rw [foldl_stepEntry_games]
      simp only [Nat.zero_add]
      apply List.countP_congr
      intro t _
      rw [sessionSorted_any_eq_decide]
  · intro db es t h
    unfold processTable
    rw [if_pos (List.isEmpty_iff.mpr h)]
  · intro db t es i e he hrne hlen
    have hne : (roundsOfTable db t.id).isEmpty = false := List.isEmpty_eq_false.mpr hrne
    rw [processTable_getElem?, he]
    have hstep : stepEntry db t e = { e with gamesPlayed := e.gamesPlayed +
        (if e.id ∈ sessionParticipants db t then 1 else 0) } := by
      unfold stepEntry
      rw [if_neg (by rw [hne]; exact Bool.false_ne_true)]
      have hpts : getPointsDistribution (sessionSorted db t).length = [] := by
        rw [sessionSorted_length]
        exact getPointsDistribution_eq_nil _ hlen
      rw [show sessionAward db t e.id
          = entryAward e.id (getPointsDistribution (sessionSorted db t).length) 0
            (sessionSorted db t) from rfl, hpts, entryAward_points_nil, add_zero]
      rw [sessionSorted_any_eq_decide]
      by_cases hmem : e.id ∈ sessionParticipants db t
      · rw [decide_eq_true hmem]
        simp [hmem]
      · rw [decide_eq_false hmem]
        simp [hmem]
    rw [show Option.map (stepEntry db t) (some e) = some (stepEntry db t e) from rfl, hstep]

/-- A three-player session (no defined distribution for count 3). -/
def exDB5 : DB :=
  { players := [⟨1, "A"⟩, ⟨2, "B"⟩, ⟨3, "C"⟩],
    tables := [⟨1, 202509020000, false, false⟩],
    rounds := [⟨1, 1⟩],
    scores := [⟨1, 1, 5⟩, ⟨1, 2, -2⟩, ⟨1, 3, -3⟩],
    tablePlayers := [(1, 1), (1, 2), (1, 3)] }

/-- Witness for C5: the games-played count and the undefined-distribution
case evaluated on the three-player database. -/
theorem claim5_games_played_witness :
    (∃ e, (accumulate exDB5 SEM3 false)[0]? = some e ∧ e.id = 1 ∧ e.name = "A" ∧
      e.gamesPlayed = (selectTables exDB5 SEM3.startDate SEM3.endDate false).countP
        (fun t => !(roundsOfTable exDB5 t.id).isEmpty &&
          decide ((1 : Nat) ∈ sessionParticipants exDB5 t))) ∧
    (processTable exDB5 (initEntries exDB5.players) ⟨1, 202509020000, false, false⟩)[0]?
      = some { id := 1, name := "A", totalScore := 0, gamesPlayed := 0 +
          (if (1 : Nat) ∈ sessionParticipants exDB5 ⟨1, 202509020000, false, false⟩
            then 1 else 0) } :=
  ⟨claim5_games_played.1 exDB5 SEM3 false 0 ⟨1, "A"⟩ (by decide),
   claim5_games_played.2.2 exDB5 ⟨1, 202509020000, false, false⟩ (initEntries exDB5.players)
     0 ⟨1, "A", 0, 0⟩ (by decide) (by decide) (by decide)⟩

/-- C10: the distribution row is selected by the number of distinct scored
player ids (not the roster size, which the engine never reads); an
unscored roster member is untouched by the session; a scored roster member
(zero scores included) is ranked and counted. -/
theorem claim10_participant_count :
    (∀ (db : DB) (t : TableRow),
      (sessionSorted db t).length = (sessionParticipants db t).length ∧
      (sessionParticipants db t).Nodup ∧
      (∀ pid, pid ∈ sessionParticipants db t ↔
        pid ∈ (scoresOfTable db t).map (fun s => s.playerId))) ∧
    (∀ (db : DB) (roster : List (Nat × Nat)) (sem : Semester) (inc : Bool),
      loadLeaderboardPure { db with tablePlayers := roster } sem inc
        = loadLeaderboardPure db sem inc) ∧
    (∀ (db : DB) (t : TableRow) (es : List LBEntry) (i : Nat) (e : LBEntry),
      es[i]? = some e → e.id ∉ sessionParticipants db t →
      (processTable db es t)[i]? = some e) ∧
    (∀ (db : DB) (t : TableRow) (es : List LBEntry) (i : Nat) (e : LBEntry),
      es[i]? = some e → roundsOfTable db t.id ≠ [] → e.id ∈ sessionParticipants db t →
      (processTable db es t)[i]? = some { e with
        totalScore := e.totalScore + sessionAward db t e.id,
        gamesPlayed := e.gamesPlayed + 1 }) := by
  refine ⟨?_, ?_, ?_, ?_⟩
  · intro db t
    exact ⟨sessionSorted_length db t, sessionParticipants_nodup db t,
      fun pid => sessionParticipants_mem db t pid⟩
  · intro db roster sem inc
    rfl
  · intro db t es i e he hmem
    rw [processTable_getElem?, he,
      show Option.map (stepEntry db t) (some e) = some (stepEntry db t e) from rfl]
    have hfix : stepEntry db t e = e := by
      unfold stepEntry
      by_cases h : (roundsOfTable db t.id).isEmpty
      · rw [if_pos h]
      · rw [if_neg h]
        have haw : sessionAward db t e.id = 0 := by
          apply entryAward_not_mem
          intro hc
          exact hmem ((rankedOf_keys_mem _ _).mp hc)
        have hany : ((sessionSorted db t).any (fun q => q.1 == e.id)) = false := by
          rw [sessionSorted_any_eq_decide, decide_eq_false hmem]
        rw [haw, hany, add_zero]
        simp
    rw [hfix]
  · intro db t es i e he hrne hmem
    rw [processTable_getElem?, he,
      show Option.map (stepEntry db t) (some e) = some (stepEntry db t e) from rfl]
    have hfix : stepEntry db t e = { e with
        totalScore := e.totalScore + sessionAward db t e.id,
        gamesPlayed := e.gamesPlayed + 1 } := by
      unfold stepEntry
      rw [if_neg (by rw [List.isEmpty_eq_false.mpr hrne]; exact Bool.false_ne_true),
        sessionSorted_any_eq_decide, decide_eq_true hmem, if_pos rfl]
    rw [hfix]

/-- Witness for C10: the unscored-member and zero-score-member cases
evaluated on the three-player database. -/
theorem claim10_participant_count_witness :
    (processTable exDB5 [⟨9, "X", 0, 0⟩] ⟨1, 202509020000, false, false⟩)[0]?
      = some ⟨9, "X", 0, 0⟩ ∧
    (processTable exDB5 (initEntries exDB5.players) ⟨1, 202509020000, false, false⟩)[0]?
      = some { id := 1, name := "A",
               totalScore := 0 + sessionAward exDB5 ⟨1, 202509020000, false, false⟩ 1,
               gamesPlayed := 0 + 1 } :=
  ⟨claim10_participant_count.2.2.1 exDB5 ⟨1, 202509020000, false, false⟩
      [⟨9, "X", 0, 0⟩] 0 ⟨9, "X", 0, 0⟩ (by decide) (by decide),
   claim10_participant_count.2.2.2 exDB5 ⟨1, 202509020000, false, false⟩
      (initEntries exDB5.players) 0 ⟨1, "A", 0, 0⟩ (by decide) (by decide) (by decide)⟩

/-! ## Claim C3: round validator and unconditional upsert -/

theorem find_map_replace (rid pid : Nat) (v : Int) :
    ∀ scores : List ScoreRow,
      (∃ s ∈ scores, (s.roundId == rid && s.playerId == pid) = true) →
      (scores.map (fun s =>
          if s.roundId == rid && s.playerId == pid then { s with rawScore := v } else s)).find?
            (fun s => s.roundId == rid && s.playerId == pid)
        = some { roundId := rid, playerId := pid, rawScore := v }
  | [], h => absurd h (by simp)
  | s :: rest, h => by
      rw [List.map_cons]
      by_cases hs : (s.roundId == rid && s.playerId == pid) = true
      · obtain ⟨h1, h2⟩ := (Bool.and_eq_true _ _).mp hs
        have hr : s.roundId = rid := beq_iff_eq.mp h1
        have hp : s.playerId = pid := beq_iff_eq.mp h2
        have hpf : ((fun s : ScoreRow => s.roundId == rid && s.playerId == pid)
            ({ s with rawScore := v } : ScoreRow)) = true := hs
        rw [if_pos hs,
          @List.find?_cons_of_pos ScoreRow (fun s => s.roundId == rid && s.playerId == pid)
            { s with rawScore := v } _ hpf]
        rw [show ({ s with rawScore := v } : ScoreRow)
            = { roundId := s.roundId, playerId := s.playerId, rawScore := v } from rfl,
          hr, hp]
      · have hpf : ¬((fun s : ScoreRow => s.roundId == rid && s.playerId == pid) s) = true := hs
        rw [if_neg hs,
          @List.find?_cons_of_neg ScoreRow (fun s => s.roundId == rid && s.playerId == pid)
            s _ hpf]
        apply find_map_replace rid pid v rest
        rcases h with ⟨s0, hmem, hs0⟩
        rcases List.mem_cons.mp hmem with h0 | h0
        · exact absurd (h0 ▸ hs0) hs
        · exact ⟨s0, h0, hs0⟩

/-- The upserted row is exactly the one `find?` retrieves afterwards. -/
theorem upsert_find (rid pid : Nat) (v : Int) (scores : List ScoreRow) :
    (upsertScore scores rid pid v).find? (fun s => s.roundId == rid && s.playerId == pid)
      = some { roundId := rid, playerId := pid, rawScore := v } := by
  unfold upsertScore
  by_cases h : scores.any (fun s => s.roundId == rid && s.playerId == pid) = true
  · rw [if_pos h]
    exact find_map_replace rid pid v scores (List.any_eq_true.mp h)
  · rw [if_neg h, List.find?_append]
    have hnone : scores.find? (fun s => s.roundId == rid && s.playerId == pid) = none := by
      rw [List.find?_eq_none]
      intro x hx hpx
      exact h (List.any_eq_true.mpr ⟨x, hx, hpx⟩)
    have hpf : ((fun s : ScoreRow => s.roundId == rid && s.playerId == pid)
        ({ roundId := rid, playerId := pid, rawScore := v } : ScoreRow)) = true := by simp
    rw [hnone, Option.none_or,
      @List.find?_cons_of_pos ScoreRow (fun s => s.roundId == rid && s.playerId == pid)
        { roundId := rid, playerId := pid, rawScore := v } _ hpf]

/-- C3: the round validator flags a round iff the raw scores of the round
sum to a nonzero value, and the score upsert persists the new value for
every database state — the round's validity (hypothesis `b`, arbitrary)
plays no role in persistence. -/
theorem claim3_validator_upsert :
    (∀ (db : DB) (rid : Nat), roundIsInvalid db rid = true ↔ roundSum db rid ≠ 0) ∧
    (∀ (db : DB) (rid pid : Nat) (v : Int) (b : Bool), roundIsInvalid db rid = b →
      findRoundScore (handleScoreUpdate db rid pid v) rid pid = some v) := by
  constructor
  · intro db rid
    unfold roundIsInvalid
    exact bne_iff_ne
  · intro db rid pid v b _
    unfold findRoundScore handleScoreUpdate
    rw [show ({ db with scores := upsertScore db.scores rid pid v } : DB).scores
        = upsertScore db.scores rid pid v from rfl, upsert_find]
    rfl

/-- Scenario B database: five players, round 1 sums to zero, round 2 sums
to three. -/
def exDB3 : DB :=
  { players := [⟨1, "A"⟩, ⟨2, "B"⟩, ⟨3, "C"⟩, ⟨4, "D"⟩, ⟨5, "E"⟩],
    tables := [⟨1, 202509020000, false, false⟩],
    rounds := [⟨1, 1⟩, ⟨2, 1⟩],
    scores := [⟨1, 1, 10⟩, ⟨1, 2, -5⟩, ⟨1, 3, -5⟩, ⟨1, 4, 0⟩, ⟨1, 5, 0⟩,
               ⟨2, 1, 3⟩, ⟨2, 2, 0⟩, ⟨2, 3, 0⟩, ⟨2, 4, 0⟩, ⟨2, 5, 0⟩],
    tablePlayers := [(1, 1), (1, 2), (1, 3), (1, 4), (1, 5)] }

/-- Witness for C3: the upsert persists on the invalid round 2 of the
Scenario B database. -/
theorem claim3_validator_upsert_witness :
    roundIsInvalid exDB3 1 = false ∧ roundIsInvalid exDB3 2 = true ∧
    findRoundScore (handleScoreUpdate exDB3 2 3 7) 2 3 = some 7 :=
  ⟨by decide, by decide, claim3_validator_upsert.2 exDB3 2 3 7 true (by decide)⟩

/-! ## Claim C6: session selection filter -/

/-- Filtering the tables by a predicate the selection filter already
implies leaves the selection (and hence the whole leaderboard) unchanged. -/
theorem selectTables_filter_absorb (db : DB) (q : TableRow → Bool) (s e : Nat) (inc : Bool)
    (h : ∀ t, (tablePass s e inc t && q t) = tablePass s e inc t) :
    selectTables { db with tables := db.tables.filter q } s e inc
      = selectTables db s e inc := by
  unfold selectTables
  rw [show ({ db with tables := db.tables.filter q } : DB).tables
      = db.tables.filter q from rfl, List.filter_filter]
  exact List.filter_congr (fun t _ => h t)

theorem loadLeaderboardPure_tables_filter (db : DB) (q : TableRow → Bool)
    (sem : Semester) (inc : Bool)
    (h : ∀ t, (tablePass sem.startDate sem.endDate inc t && q t)
        = tablePass sem.startDate sem.endDate inc t) :
    loadLeaderboardPure { db with tables := db.tables.filter q } sem inc
      = loadLeaderboardPure db sem inc := by
  unfold loadLeaderboardPure accumulate
  rw [selectTables_filter_absorb db q sem.startDate sem.endDate inc h]
  rfl

/-- The zero-round session of the C6 counterexample (closed, not excluded,
created inside the Semester-1 window). -/
def exDB6 : DB :=
  { players := [⟨1, "A"⟩],
    tables := [⟨1, 202409150000, false, false⟩],
    rounds := [],
    scores := [],
    tablePlayers := [] }

/-- C6 counterexample: this session satisfies every condition of the
selection filter (it is selected), yet it contributes to no player's total
or gamesPlayed — the leaderboard is identical with the session removed, so
the "if" direction of the claimed equivalence fails. -/
theorem claim6_counterexample :
    (⟨1, 202409150000, false, false⟩ : TableRow)
        ∈ selectTables exDB6 SEM1.startDate SEM1.endDate false ∧
    loadLeaderboardPure exDB6 SEM1 false
      = loadLeaderboardPure { exDB6 with tables := [] } SEM1 false ∧
    loadLeaderboardPure exDB6 SEM1 false = [⟨1, "A", 0, 0⟩] := by
  refine ⟨by decide, by decide, by decide⟩

/-- C6 amended: a session can contribute only when it passes the filter —
membership in the scanned list is exactly the conjunction of the three
conditions, restricting the tables to those passing the filter never
changes the output, and dropping every `excludeFromOverall = true` session
changes nothing for any window and any `includeOpenSessions` setting. -/
theorem claim6_session_filter :
    (∀ (db : DB) (s e : Nat) (inc : Bool) (t : TableRow),
      t ∈ selectTables db s e inc ↔
        (t ∈ db.tables ∧ t.excludeFromOverall = false ∧ s ≤ t.createdAt ∧
          t.createdAt ≤ e ∧ (inc = true ∨ t.isOpen = false))) ∧
    (∀ (db : DB) (sem : Semester) (inc : Bool),
      loadLeaderboardPure
          { db with
            tables := db.tables.filter (tablePass sem.startDate sem.endDate inc) }
          sem inc
        = loadLeaderboardPure db sem inc) ∧
    (∀ (db : DB) (sem : Semester) (inc : Bool),
      loadLeaderboardPure
          { db with
            tables := db.tables.filter (fun t => t.excludeFromOverall == false) }
          sem inc
        = loadLeaderboardPure db sem inc) := by
  refine ⟨?_, ?_, ?_⟩
  · intro db s e inc t
    simp [selectTables, tablePass, List.mem_filter, Bool.and_eq_true, Bool.or_eq_true,
      decide_eq_true_eq, beq_iff_eq, and_assoc]
  · intro db sem inc
    exact loadLeaderboardPure_tables_filter db _ sem inc (fun t => Bool.and_self _)
  · intro db sem inc
    apply loadLeaderboardPure_tables_filter
    intro t
    unfold tablePass
    cases t.excludeFromOverall <;> simp

/-! ## Claim C9: Semester-3 offsets and exclusion -/

/-- Outside the Semester-3 window the finalization applies no offset and
removes nobody: it is exactly the final sort. -/
theorem finalizeBoard_not_sem3 (sem : Semester) (h : sem.id ≠ "sem3")
    (acc : List LBEntry) : finalizeBoard sem acc = sortEntriesDesc acc := by
  have hb : (sem.id == "sem3") = false := beq_eq_false_iff_ne.mpr h
  unfold finalizeBoard
  have hmap : acc.map (fun e =>
      if sem.id == "sem3" then { e with totalScore := e.totalScore + offsetOf e.name }
      else e) = acc.map id :=
    List.map_congr_left (fun e _ => by rw [hb, if_neg Bool.false_ne_true]; rfl)
  have hfil : (acc.map id).filter
      (fun e => !(sem.id == "sem3" && e.name == "Danilo")) = acc.map id :=
    List.filter_eq_self.mpr (fun e _ => by rw [hb, Bool.false_and, Bool.not_false])
  rw [hmap, hfil, List.map_id]

/-- Inside the Semester-3 window the finalization is a permutation of the
offset-adjusted, Danilo-filtered accumulation. -/
theorem finalizeBoard_sem3_perm (acc : List LBEntry) :
    (finalizeBoard SEM3 acc).Perm
      ((acc.map (fun e => { e with totalScore := e.totalScore + offsetOf e.name })).filter
        (fun e => !(e.name == "Danilo"))) := by
  have hb : (SEM3.id == "sem3") = true := by decide
  unfold finalizeBoard
  have hmap : acc.map (fun e =>
      if SEM3.id == "sem3" then { e with totalScore := e.totalScore + offsetOf e.name }
      else e) = acc.map (fun e => { e with totalScore := e.totalScore + offsetOf e.name }) :=
    List.map_congr_left (fun e _ => by rw [hb, if_pos rfl])
  have hfil : ∀ l : List LBEntry, l.filter
      (fun e => !(SEM3.id == "sem3" && e.name == "Danilo"))
      = l.filter (fun e => !(e.name == "Danilo")) :=
    fun l => List.filter_congr (fun e _ => by rw [hb, Bool.true_and])
  rw [hmap, hfil]
  exact stableSort_perm _ _

/-- The all-offsets scenario database: Nikita registered, no sessions. -/
def exDB9 : DB :=
  { players := [⟨1, "Nikita"⟩],
    tables := [],
    rounds := [],
    scores := [],
    tablePlayers := [] }

/-- C9: the manual offsets and the Danilo exclusion fire exactly in the
Semester-3 window — outside it the pipeline is the bare sort of the
accumulation (nothing added, nobody removed); inside it every total is the
accumulated total plus the name's offset, Danilo is removed entirely, and
a player with offset -2 and no sessions shows -2 points and 0 games. -/
theorem claim9_semester_offsets :
    (∀ (db : DB) (sem : Semester) (inc : Bool), sem.id ≠ "sem3" →
      loadLeaderboardPure db sem inc = sortEntriesDesc (accumulate db sem inc) ∧
      (loadLeaderboardPure db sem inc).Perm (accumulate db sem inc)) ∧
    (∀ (db : DB) (inc : Bool),
      (loadLeaderboardPure db SEM3 inc).Perm
        (((accumulate db SEM3 inc).map (fun e =>
            { e with totalScore := e.totalScore + offsetOf e.name })).filter
          (fun e => !(e.name == "Danilo")))) ∧
    (∀ (db : DB) (inc : Bool) (e : LBEntry),
      e ∈ loadLeaderboardPure db SEM3 inc → e.name ≠ "Danilo") ∧
    loadLeaderboardPure exDB9 SEM3 false = [⟨1, "Nikita", -2, 0⟩] := by
  refine ⟨?_, ?_, ?_, by decide⟩
  · intro db sem inc h
    have heq : loadLeaderboardPure db sem inc = sortEntriesDesc (accumulate db sem inc) :=
      finalizeBoard_not_sem3 sem h (accumulate db sem inc)
    exact ⟨heq, by rw [heq]; exact stableSort_perm _ _⟩
  · intro db inc
    exact finalizeBoard_sem3_perm (accumulate db SEM3 inc)
  · intro db inc e hmem
    have hperm := finalizeBoard_sem3_perm (accumulate db SEM3 inc)
    have hmem2 := (hperm.mem_iff).mp hmem
    have hpred := (List.mem_filter.mp hmem2).2
    rw [Bool.not_eq_true'] at hpred
    exact beq_eq_false_iff_ne.mp hpred

/-- Witness for C9: the no-offset branch applied at the Semester-1 window
and the exclusion applied at a concrete output member. -/
theorem claim9_semester_offsets_witness :
    (loadLeaderboardPure exDB9 SEM1 false = sortEntriesDesc (accumulate exDB9 SEM1 false) ∧
      (loadLeaderboardPure exDB9 SEM1 false).Perm (accumulate exDB9 SEM1 false)) ∧
    (⟨1, "Nikita", -2, 0⟩ : LBEntry) ∈ loadLeaderboardPure exDB9 SEM3 false ∧
    ("Nikita" : String) ≠ "Danilo" :=
  ⟨claim9_semester_offsets.1 exDB9 SEM1 false (by decide),
   by decide,
   claim9_semester_offsets.2.2.1 exDB9 false ⟨1, "Nikita", -2, 0⟩ (by decide)⟩

/-! ## Claim C7: failure semantics of the leaderboard computation -/

/-- The Score Repository boundary: each retrieval can fail (`supabase`
returns `{ data, error }`; the code throws on `error`). -/
structure Repo where
  getPlayers : Except String (List PlayerRow)
  getTables : Nat → Nat → Bool → Except String (List TableRow)
  getRounds : Nat → Except String (List RoundRow)
  getScores : List Nat → Except String (List ScoreRow)

/-- One loop iteration of `loadLeaderboard` with fallible queries:
`if (roundsError) throw`, skip on no rounds, `if (scoresError) throw`,
then award. -/
def sessionStep (repo : Repo) (es : List LBEntry) (t : TableRow) :
    Except String (List LBEntry) := do
  let roundsData ← repo.getRounds t.id
  if roundsData.isEmpty then pure es
  else
    let scoresData ← repo.getScores (roundsData.map (fun r => r.id))
    pure (applyScores es scoresData)

/-- `loadLeaderboard` in the `Except` monad: players, tables, the
per-table loop, then finalization — any `throw` aborts the whole
computation and the `catch` surfaces the error; no standings are set. -/
def loadLeaderboard (repo : Repo) (sem : Semester) (inc : Bool) :
    Except String (List LBEntry) := do
  let playersData ← repo.getPlayers
  let tablesData ← repo.getTables sem.startDate sem.endDate inc
  let acc ← tablesData.foldlM (sessionStep repo) (initEntries playersData)
  pure (finalizeBoard sem acc)

/-- The repository view of a database snapshot: every query succeeds. -/
def repoOfDB (db : DB) : Repo :=
  { getPlayers := Except.ok db.players,
    getTables := fun s e inc => Except.ok (selectTables db s e inc),
    getRounds := fun tid => Except.ok (roundsOfTable db tid),
    getScores := fun rids => Except.ok (scoresOfRounds db rids) }

theorem sessionStep_repoOfDB (db : DB) (es : List LBEntry) (t : TableRow) :
    sessionStep (repoOfDB db) es t = Except.ok (processTable db es t) := by
  show (if (roundsOfTable db t.id).isEmpty then (pure es : Except String (List LBEntry))
      else pure (applyScores es
        (scoresOfRounds db ((roundsOfTable db t.id).map (fun r => r.id)))))
    = Except.ok (processTable db es t)
  show (if (roundsOfTable db t.id).isEmpty then (pure es : Except String (List LBEntry))
      else pure (applyScores es
        (scoresOfRounds db ((roundsOfTable db t.id).map (fun r => r.id)))))
    = Except.ok (if (roundsOfTable db t.id).isEmpty then es
      else applyScores es (scoresOfRounds db ((roundsOfTable db t.id).map (fun r => r.id))))
  cases (roundsOfTable db t.id).isEmpty with
  | false => rfl
  | true => rfl

theorem foldlM_sessionStep_repoOfDB (db : DB) :
    ∀ (ts : List TableRow) (es : List LBEntry),
      ts.foldlM (sessionStep (repoOfDB db)) es
        = Except.ok (ts.foldl (processTable db) es)
  | [], es => rfl
  | t :: ts, es => by
      rw [List.foldlM_cons, sessionStep_repoOfDB]
      show ts.foldlM (sessionStep (repoOfDB db)) (processTable db es t)
        = Except.ok ((t :: ts).foldl (processTable db) es)
      rw [foldlM_sessionStep_repoOfDB db ts (processTable db es t), List.foldl_cons]

/-- On a list with a member on which the monadic step always fails, the
monadic fold fails. -/
theorem foldlM_error_of_mem (f : List LBEntry → TableRow → Except String (List LBEntry)) :
    ∀ (l : List TableRow) (t : TableRow), t ∈ l →
      (∀ b, ∃ e, f b t = Except.error e) →
      ∀ b0, ∃ e, l.foldlM f b0 = Except.error e
  | [], t, hm, _, _ => absurd hm (List.not_mem_nil t)
  | x :: xs, t, hm, hf, b0 => by
      rw [List.foldlM_cons]
      cases hfx : f b0 x with
      | error e => exact ⟨e, rfl⟩
      | ok b1 =>
          rcases List.mem_cons.mp hm with he | hmem
          · rcases hf b0 with ⟨e, hfe⟩
            rw [he, hfx] at hfe
            exact absurd hfe (by simp)
          · rcases foldlM_error_of_mem f xs t hmem hf b1 with ⟨e, hre⟩
            exact ⟨e, hre⟩

/-- C7: any repository failure — players, tables, a member table's rounds,
or a nonempty member table's scores — aborts the whole computation with an
error; on an error-free repository the result is the complete standings
list, so the outcome is always either an error or a complete board. -/
theorem claim7_failure_semantics :
    (∀ (repo : Repo) (sem : Semester) (inc : Bool) (e : String),
      repo.getPlayers = Except.error e →
      loadLeaderboard repo sem inc = Except.error e) ∧
    (∀ (repo : Repo) (sem : Semester) (inc : Bool) (ps : List PlayerRow) (e : String),
      repo.getPlayers = Except.ok ps →
      repo.getTables sem.startDate sem.endDate inc = Except.error e →
      loadLeaderboard repo sem inc = Except.error e) ∧
    (∀ (repo : Repo) (sem : Semester) (inc : Bool) (ps : List PlayerRow)
      (ts : List TableRow) (t : TableRow) (e : String),
      repo.getPlayers = Except.ok ps →
      repo.getTables sem.startDate sem.endDate inc = Except.ok ts →
      t ∈ ts → repo.getRounds t.id = Except.error e →
      ∃ e2, loadLeaderboard repo sem inc = Except.error e2) ∧
    (∀ (repo : Repo) (sem : Semester) (inc : Bool) (ps : List PlayerRow)
      (ts : List TableRow) (t : TableRow) (rs : List RoundRow) (e : String),
      repo.getPlayers = Except.ok ps →
      repo.getTables sem.startDate sem.endDate inc = Except.ok ts →
      t ∈ ts → repo.getRounds t.id = Except.ok rs → rs ≠ [] →
      repo.getScores (rs.map (fun r => r.id)) = Except.error e →
      ∃ e2, loadLeaderboard repo sem inc = Except.error e2) ∧
    (∀ (db : DB) (sem : Semester) (inc : Bool),
      loadLeaderboard (repoOfDB db) sem inc
        = Except.ok (loadLeaderboardPure db sem inc)) := by
  refine ⟨?_, ?_, ?_, ?_, ?_⟩
  · intro repo sem inc e h
    unfold loadLeaderboard
    rw [h]
    rfl
  · intro repo sem inc ps e hp ht
    unfold loadLeaderboard
    rw [hp]
    show (repo.getTables sem.startDate sem.endDate inc >>= fun tablesData =>
        (tablesData.foldlM (sessionStep repo) (initEntries ps) >>= fun acc =>
          pure (finalizeBoard sem acc))) = Except.error e
    rw [ht]
    rfl
  · intro repo sem inc ps ts t e hp ht hmem hr
    have hstep : ∀ b, ∃ e2, sessionStep repo b t = Except.error e2 := by
      intro b
      refine ⟨e, ?_⟩
      unfold sessionStep
      rw [hr]
      rfl
    rcases foldlM_error_of_mem (sessionStep repo) ts t hmem hstep (initEntries ps)
      with ⟨e2, hfe⟩
    refine ⟨e2, ?_⟩
    unfold loadLeaderboard
    rw [hp]
    show (repo.getTables sem.startDate sem.endDate inc >>= fun tablesData =>
        (tablesData.foldlM (sessionStep repo) (initEntries ps) >>= fun acc =>
          pure (finalizeBoard sem acc))) = Except.error e2
    rw [ht]
    show (ts.foldlM (sessionStep repo) (initEntries ps) >>= fun acc =>
        pure (finalizeBoard sem acc)) = Except.error e2
    rw [hfe]
    rfl
  · intro repo sem inc ps ts t rs e hp ht hmem hr hne hs
    have hstep : ∀ b, ∃ e2, sessionStep repo b t = Except.error e2 := by
      intro b
      refine ⟨e, ?_⟩
      unfold sessionStep
      rw [hr]
      show (if rs.isEmpty then (pure b : Except String (List LBEntry))
          else (repo.getScores (rs.map (fun r => r.id)) >>= fun scoresData =>
            pure (applyScores b scoresData))) = Except.error e
      rw [if_neg (by rw [List.isEmpty_eq_false.mpr hne]; exact Bool.false_ne_true), hs]
      rfl
    rcases foldlM_error_of_mem (sessionStep repo) ts t hmem hstep (initEntries ps)
      with ⟨e2, hfe⟩
    refine ⟨e2, ?_⟩
    unfold loadLeaderboard
    rw [hp]
    show (repo.getTables sem.startDate sem.endDate inc >>= fun tablesData =>
        (tablesData.foldlM (sessionStep repo) (initEntries ps) >>= fun acc =>
          pure (finalizeBoard sem acc))) = Except.error e2
    rw [ht]
    show (ts.foldlM (sessionStep repo) (initEntries ps) >>= fun acc =>
        pure (finalizeBoard sem acc)) = Except.error e2
    rw [hfe]
    rfl
  · intro db sem inc
    show ((selectTables db sem.startDate sem.endDate inc).foldlM
        (sessionStep (repoOfDB db)) (initEntries db.players) >>= fun acc =>
          pure (finalizeBoard sem acc))
      = Except.ok (loadLeaderboardPure db sem inc)
    rw [foldlM_sessionStep_repoOfDB]
    rfl

/-- A repository whose players query fails. -/
def badRepoPlayers : Repo :=
  { getPlayers := Except.error "players failed",
    getTables := fun _ _ _ => Except.ok [],
    getRounds := fun _ => Except.ok [],
    getScores := fun _ => Except.ok [] }

/-- A repository whose rounds query fails for every table. -/
def badRepoRounds : Repo :=
  { getPlayers := Except.ok [⟨1, "A"⟩],
    getTables := fun _ _ _ => Except.ok [⟨1, 202509020000, false, false⟩],
    getRounds := fun _ => Except.error "rounds failed",
    getScores := fun _ => Except.ok [] }

/-- Witness for C7: a failing players query aborts, a failing rounds query
aborts, and the error-free repository yields the complete board. -/
theorem claim7_failure_semantics_witness :
    loadLeaderboard badRepoPlayers SEM3 false = Except.error "players failed" ∧
    (∃ e2, loadLeaderboard badRepoRounds SEM3 false = Except.error e2) ∧
    loadLeaderboard (repoOfDB exDB8) SEM3 false
      = Except.ok (loadLeaderboardPure exDB8 SEM3 false) :=
  ⟨claim7_failure_semantics.1 badRepoPlayers SEM3 false "players failed" rfl,
   claim7_failure_semantics.2.2.1 badRepoRounds SEM3 false [⟨1, "A"⟩]
     [⟨1, 202509020000, false, false⟩] ⟨1, 202509020000, false, false⟩ "rounds failed"
     rfl rfl (List.mem_singleton.mpr rfl) rfl,
   claim7_failure_semantics.2.2.2.2 exDB8 SEM3 false⟩

/-! ## Claim C4: the timeline builder (PlayerScoreChart, windowed variant) -/

/-- The per-player chart state: `{ id, name, scores }` with score entries
`(timestamp, awarded points)` (colors are presentation-only and omitted). -/
structure PSState where
  id : Nat
  name : String
  scores : List (Nat × Int)
deriving DecidableEq, Repr

/-- `initialPlayers`: every registered player with an empty score list. -/
def initPlayerScores (db : DB) : List PSState :=
  db.players.map (fun p => { id := p.id, name := p.name, scores := [] })

/-- The chart's `Tables` query filter: not excluded, closed, within the
inclusive date window. -/
def chartPass (startDate endDate : Nat) (t : TableRow) : Bool :=
  t.excludeFromOverall == false && t.isOpen == false &&
  startDate ≤ t.createdAt && t.createdAt ≤ endDate

/-- The chart's `Tables` query: filtered and ordered by `created_at`
ascending. -/
def chartSelectTables (db : DB) (startDate endDate : Nat) : List TableRow :=
  stableSort (fun a b => a.createdAt ≤ b.createdAt)
    (db.tables.filter (chartPass startDate endDate))

/-- JS object assignment with a string key (overwrite in place or append). -/
def setStrKey (rec : List (String × Int)) (k : String) (v : Int) : List (String × Int) :=
  if rec.any (fun kv => kv.1 == k) then
    rec.map (fun kv => if kv.1 == k then (k, v) else kv)
  else rec ++ [(k, v)]

/-- `if (!timestampScores.has(ts)) timestampScores.set(ts, {})` followed by
`timestampScores.get(ts)![name] = v` on the insertion-ordered map. -/
def updateTs (m : List (Nat × List (String × Int))) (ts : Nat) (nm : String) (v : Int) :
    List (Nat × List (String × Int)) :=
  let m1 := if m.any (fun kv => kv.1 == ts) then m else m ++ [(ts, [])]
  m1.map (fun kv => if kv.1 == ts then (kv.1, setStrKey kv.2 nm v) else kv)

/-- One participant of the chart's `forEach`: `findIndex` by player id
(skip when not registered), read the running total, push the new score
entry, and write name ↦ cumulative total under the session timestamp. -/
def chartInnerStep (ts : Nat) (points : List Int)
    (st : List PSState × List (Nat × List (String × Int)))
    (ip : Nat × (Nat × Int)) : List PSState × List (Nat × List (String × Int)) :=
  match st.1.findIdx? (fun ps => ps.id == ip.2.1) with
  | none => st
  | some j =>
    match st.1[j]? with
    | none => st
    | some ps =>
      let cur := (ps.scores.map Prod.snd).sum
      let v := points.getD ip.1 0
      (st.1.set j { ps with scores := ps.scores ++ [(ts, v)] },
       updateTs st.2 ts ps.name (cur + v))

/-- One table of the chart loop: skip without rounds, otherwise rank the
scored players and run the `forEach` over the ranking. -/
def processChartTable (db : DB)
    (st : List PSState × List (Nat × List (String × Int))) (t : TableRow) :
    List PSState × List (Nat × List (String × Int)) :=
  let roundsData := roundsOfTable db t.id
  if roundsData.isEmpty then st
  else
    let ranked := rankedOf (scoresOfRounds db (roundsData.map (fun r => r.id)))
    let points := getPointsDistribution ranked.length
    (enumIdx 0 ranked).foldl (chartInnerStep t.createdAt points) st

/-- `loadChartData` as a pure function of the snapshot: the emitted chart
points (timestamp, name ↦ cumulative total) sorted by timestamp, and the
final per-player states. -/
def loadChartDataPure (db : DB) (startDate endDate : Nat) :
    List (Nat × List (String × Int)) × List PSState :=
  let st := (chartSelectTables db startDate endDate).foldl (processChartTable db)
    (initPlayerScores db, [])
  (stableSort (fun a b => a.1 ≤ b.1) st.2, st.1)

/-- Five registered players; the single session has score rows only for
players 1-4. -/
def exDB4 : DB :=
  { players := [⟨1, "A"⟩, ⟨2, "B"⟩, ⟨3, "C"⟩, ⟨4, "D"⟩, ⟨5, "E"⟩],
    tables := [⟨1, 202509020000, false, false⟩],
    rounds := [⟨1, 1⟩],
    scores := [⟨1, 1, 30⟩, ⟨1, 2, -10⟩, ⟨1, 3, -10⟩, ⟨1, 4, -10⟩],
    tablePlayers := [(1, 1), (1, 2), (1, 3), (1, 4)] }

/-- C4 counterexample: player E is registered, yet the single emitted data
point carries no entry for E — the point is not a full snapshot across all
players, only across the session's participants. -/
theorem claim4_full_snapshot_counterexample :
    (⟨5, "E"⟩ : PlayerRow) ∈ exDB4.players ∧
    (loadChartDataPure exDB4 202509010000 202604302359).1
      = [(202509020000, [("A", 2), ("B", 1), ("C", -1), ("D", -2)])] ∧
    ∀ pt ∈ (loadChartDataPure exDB4 202509010000 202604302359).1,
      "E" ∉ pt.2.map Prod.fst := by
  refine ⟨by decide, by decide, by decide⟩

/-- The registered name of a player id (`findIndex` on the player states
succeeds exactly when this is `some`). -/
def playerName (db : DB) (pid : Nat) : Option String :=
  (db.players.find? (fun p => p.id == pid)).map (fun p => p.name)

/-- The award a player id receives from an indexed ranking (first match). -/
def idxAward (pid : Nat) (points : List Int) : List (Nat × (Nat × Int)) → Int
  | [] => 0
  | ip :: rest => if ip.2.1 = pid then points.getD ip.1 0 else idxAward pid points rest

/-- The record one session's data point holds, per the amended claim: one
entry per registered participant, in ranking order, mapping the player's
name to the cumulative total after this session. -/
def chartVals (db : DB) (c : Nat → Int) (points : List Int)
    (l : List (Nat × (Nat × Int))) : List (String × Int) :=
  l.filterMap (fun ip => (playerName db ip.2.1).map
    (fun nm => (nm, c ip.2.1 + points.getD ip.1 0)))

/-- Specification of the amended claim C4: process the selected sessions
in timestamp order, keep one cumulative accumulator per player id, skip
sessions without rounds (and points without any registered participant),
and emit per session a point keyed by its timestamp holding exactly its
registered participants' cumulative totals. -/
def chartSpecGo (db : DB) : (Nat → Int) → List TableRow → List (Nat × List (String × Int))
  | _, [] => []
  | c, t :: ts =>
    let roundsData := roundsOfTable db t.id
    if roundsData.isEmpty then chartSpecGo db c ts
    else
      let ranked := rankedOf (scoresOfRounds db (roundsData.map (fun r => r.id)))
      let points := getPointsDistribution ranked.length
      let vals := chartVals db c points (enumIdx 0 ranked)
      if vals.isEmpty then
        chartSpecGo db (fun pid => c pid + idxAward pid points (enumIdx 0 ranked)) ts
      else
        (t.createdAt, vals) ::
          chartSpecGo db (fun pid => c pid + idxAward pid points (enumIdx 0 ranked)) ts

/-- The per-player fingerprint the chart invariant tracks: id, name, and
the running sum of the pushed score entries. -/
def psKey (ps : PSState) : Nat × String × Int :=
  (ps.id, ps.name, (ps.scores.map Prod.snd).sum)

theorem setStrKey_not_mem (rec : List (String × Int)) (nm : String) (v : Int)
    (h : nm ∉ rec.map Prod.fst) : setStrKey rec nm v = rec ++ [(nm, v)] := by
  unfold setStrKey
  rw [if_neg]
  intro hc
  rcases List.any_eq_true.mp hc with ⟨kv, hkv, hb⟩
  exact h (beq_iff_eq.mp hb ▸ List.mem_map_of_mem Prod.fst hkv)

theorem updateTs_map_fix (m : List (Nat × List (String × Int))) (tsKey : Nat)
    (nm : String) (v : Int) (h : tsKey ∉ m.map Prod.fst) :
    m.map (fun kv => if kv.1 == tsKey then (kv.1, setStrKey kv.2 nm v) else kv) = m := by
  have : m.map (fun kv => if kv.1 == tsKey then (kv.1, setStrKey kv.2 nm v) else kv)
      = m.map id := by
    apply List.map_congr_left
    intro kv hkv
    rw [if_neg]
    · rfl
    · intro hc
      exact h (beq_iff_eq.mp hc ▸ List.mem_map_of_mem Prod.fst hkv)
  rw [this, List.map_id]

theorem updateTs_present (m : List (Nat × List (String × Int)))
    (rec : List (String × Int)) (tsKey : Nat) (nm : String) (v : Int)
    (h : tsKey ∉ m.map Prod.fst) :
    updateTs (m ++ [(tsKey, rec)]) tsKey nm v = m ++ [(tsKey, setStrKey rec nm v)] := by
  unfold updateTs
  rw [if_pos (List.any_eq_true.mpr ⟨(tsKey, rec), by simp, by simp⟩),
    List.map_append, updateTs_map_fix m tsKey nm v h]
  simp

theorem updateTs_absent (m : List (Nat × List (String × Int)))
    (tsKey : Nat) (nm : String) (v : Int) (h : tsKey ∉ m.map Prod.fst) :
    updateTs m tsKey nm v = m ++ [(tsKey, [(nm, v)])] := by
  unfold updateTs
  rw [if_neg, List.map_append, updateTs_map_fix m tsKey nm v h]
  · simp [setStrKey]
  · intro hc
    rcases List.any_eq_true.mp hc with ⟨kv, hkv, hb⟩
    exact h (beq_iff_eq.mp hb ▸ List.mem_map_of_mem Prod.fst hkv)

theorem enumIdx_map_pid : ∀ (n : Nat) (l : List (Nat × Int)),
    (enumIdx n l).map (fun ip => ip.2.1) = l.map Prod.fst
  | _, [] => rfl
  | n, q :: rest => by
      rw [show enumIdx n (q :: rest) = (n, q) :: enumIdx (n + 1) rest from rfl,
        List.map_cons, List.map_cons, enumIdx_map_pid (n + 1) rest]

theorem enumIdx_mem : ∀ (n : Nat) (l : List (Nat × Int)) (ip : Nat × (Nat × Int)),
    ip ∈ enumIdx n l → ip.2 ∈ l
  | _, [], _, h => absurd h (List.not_mem_nil _)
  | n, q :: rest, ip, h => by
      rw [show enumIdx n (q :: rest) = (n, q) :: enumIdx (n + 1) rest from rfl] at h
      rcases List.mem_cons.mp h with h0 | h0
      · rw [h0]
        exact List.mem_cons_self _ _
      · exact List.mem_cons_of_mem _ (enumIdx_mem (n + 1) rest ip h0)

theorem idxAward_not_mem (pid : Nat) (points : List Int) :
    ∀ l : List (Nat × (Nat × Int)), pid ∉ l.map (fun ip => ip.2.1) →
      idxAward pid points l = 0
  | [], _ => rfl
  | ip :: rest, h => by
      unfold idxAward
      rw [if_neg, idxAward_not_mem pid points rest (fun hc => h (List.mem_cons_of_mem _ hc))]
      intro hc
      exact h (by rw [← hc]; exact List.mem_cons_self _ _)

theorem chartVals_congr (db : DB) (points : List Int) (c1 c2 : Nat → Int) :
    ∀ l : List (Nat × (Nat × Int)), (∀ ip ∈ l, c1 ip.2.1 = c2 ip.2.1) →
      chartVals db c1 points l = chartVals db c2 points l
  | [], _ => rfl
  | ip :: rest, h => by
      have hh := h ip (List.mem_cons_self _ _)
      have ht : chartVals db c1 points rest = chartVals db c2 points rest :=
        chartVals_congr db points c1 c2 rest (fun x hx => h x (List.mem_cons_of_mem _ hx))
      unfold chartVals
      unfold chartVals at ht
      rw [List.filterMap_cons, List.filterMap_cons, hh, ht]

theorem playerName_eq_none (db : DB) (pid : Nat) :
    playerName db pid = none ↔ pid ∉ db.players.map (fun p => p.id) := by
  unfold playerName
  rw [Option.map_eq_none']
  constructor
  · intro h hc
    rcases List.mem_map.mp hc with ⟨p, hp, hid⟩
    have := List.find?_eq_none.mp h p hp
    exact this (beq_iff_eq.mpr hid)
  · intro h
    rw [List.find?_eq_none]
    intro p hp hb
    exact h (List.mem_map.mpr ⟨p, hp, beq_iff_eq.mp hb⟩)

theorem playerName_inj (db : DB)
    (hnames : (db.players.map (fun p => p.name)).Nodup)
    (pid1 pid2 : Nat) (nm1 nm2 : String)
    (h1 : playerName db pid1 = some nm1) (h2 : playerName db pid2 = some nm2)
    (hne : pid1 ≠ pid2) : nm1 ≠ nm2 := by
  unfold playerName at h1 h2
  rcases Option.map_eq_some'.mp h1 with ⟨p1, hf1, hn1⟩
  rcases Option.map_eq_some'.mp h2 with ⟨p2, hf2, hn2⟩
  have hb1 := @List.find?_some PlayerRow (fun p => p.id == pid1) p1 db.players hf1
  have hb2 := @List.find?_some PlayerRow (fun p => p.id == pid2) p2 db.players hf2
  have hid1 : p1.id = pid1 := beq_iff_eq.mp hb1
  have hid2 : p2.id = pid2 := beq_iff_eq.mp hb2
  have hm1 := List.mem_of_find?_eq_some hf1
  have hm2 := List.mem_of_find?_eq_some hf2
  intro hc
  have : p1 = p2 := List.inj_on_of_nodup_map hnames hm1 hm2 (by rw [hn1, hn2, hc])
  exact hne (by rw [← hid1, ← hid2, this])

theorem findIdx?_eq_none_of_forall (p : PSState → Bool) :
    ∀ pss : List PSState, (∀ x ∈ pss, ¬p x = true) → pss.findIdx? p = none
  | [], _ => rfl
  | x :: l, h => by
      rw [show (x :: l).findIdx? p = List.findIdx? p (x :: l) 0 from rfl,
        List.findIdx?_cons, if_neg (h x (List.mem_cons_self x l)), List.findIdx?_succ,
        findIdx?_eq_none_of_forall p l (fun y hy => h y (List.mem_cons_of_mem x hy))]
      rfl

theorem psKey_ids (pss : List PSState) (players : List PlayerRow) (c : Nat → Int)
    (h : pss.map psKey = players.map (fun p => (p.id, p.name, c p.id))) :
    pss.map (fun ps => ps.id) = players.map (fun p => p.id) := by
  have h2 := congrArg (List.map (fun x : Nat × String × Int => x.1)) h
  rw [List.map_map, List.map_map] at h2
  exact h2

/-- In a player-state list mirroring the registered players, the entry for
a registered id sits at the index `findIndex` returns, carries the
player's name and accumulated total, and setting it updates exactly that
player's total. -/
theorem chart_update_unique (c : Nat → Int) (pid : Nat) (nm : String) (ts : Nat) :
    ∀ (players : List PlayerRow) (pss : List PSState),
      pss.map psKey = players.map (fun p => (p.id, p.name, c p.id)) →
      (players.map (fun p => p.id)).Nodup →
      (players.find? (fun p => p.id == pid)).map (fun p => p.name) = some nm →
      ∃ j ps, pss.findIdx? (fun ps => ps.id == pid) = some j ∧ pss[j]? = some ps ∧
        ps.name = nm ∧ (ps.scores.map Prod.snd).sum = c pid ∧
        ∀ v2 : Int, (pss.set j { ps with scores := ps.scores ++ [(ts, v2)] }).map psKey
          = players.map (fun p => (p.id, p.name, c p.id + (if p.id = pid then v2 else 0)))
  | [], pss, heq, _, hf => absurd hf (by simp)
  | p :: players2, [], heq, _, _ => absurd heq (by simp)
  | p :: players2, x :: pss2, heq, hnd, hf => by
      rw [List.map_cons, List.map_cons] at heq
      have hx : psKey x = (p.id, p.name, c p.id) := by
        injection heq
      have htl : pss2.map psKey = players2.map (fun q => (q.id, q.name, c q.id)) := by
        injection heq
      have hx1 : x.id = p.id := congrArg (fun y : Nat × String × Int => y.1) hx
      have hx2 : x.name = p.name := congrArg (fun y : Nat × String × Int => y.2.1) hx
      have hx3 : (x.scores.map Prod.snd).sum = c p.id :=
        congrArg (fun y : Nat × String × Int => y.2.2) hx
      have hnd2 : (players2.map (fun q => q.id)).Nodup := (List.nodup_cons.mp hnd).2
      have hpid_not : p.id ∉ players2.map (fun q => q.id) := (List.nodup_cons.mp hnd).1
      by_cases hp : p.id = pid
      · have hfp : (p :: players2).find? (fun q => q.id == pid) = some p :=
          List.find?_cons_of_pos _ (beq_iff_eq.mpr hp)
        rw [hfp] at hf
        have hnm : p.name = nm := by
          injection hf
        refine ⟨0, x, ?_, ?_, ?_, ?_, ?_⟩
        · rw [show (x :: pss2).findIdx? (fun ps => ps.id == pid)
              = List.findIdx? (fun ps => ps.id == pid) (x :: pss2) 0 from rfl,
            List.findIdx?_cons, if_pos (beq_iff_eq.mpr (hx1.trans hp))]
        · exact List.getElem?_cons_zero
        · exact hx2.trans hnm
        · rw [hx3, hp]
        · intro v2
          rw [show (x :: pss2).set 0 { x with scores := x.scores ++ [(ts, v2)] }
              = { x with scores := x.scores ++ [(ts, v2)] } :: pss2 from rfl,
            List.map_cons, List.map_cons]
          have hhead : psKey { x with scores := x.scores ++ [(ts, v2)] }
              = (p.id, p.name, c p.id + (if p.id = pid then v2 else 0)) := by
            unfold psKey
            rw [if_pos hp]
            rw [show ({ x with scores := x.scores ++ [(ts, v2)] } : PSState).id
                = x.id from rfl,
              show ({ x with scores := x.scores ++ [(ts, v2)] } : PSState).name
                = x.name from rfl,
              show ({ x with scores := x.scores ++ [(ts, v2)] } : PSState).scores
                = x.scores ++ [(ts, v2)] from rfl,
              List.map_append, List.sum_append, hx1, hx2]
            rw [show ([((ts, v2) : Nat × Int)].map Prod.snd).sum = v2 by simp, hx3]
          have htail : pss2.map psKey
              = players2.map (fun q => (q.id, q.name, c q.id + (if q.id = pid then v2 else 0))) := by
            rw [htl]
            apply List.map_congr_left
            intro q hq
            rw [if_neg, add_zero]
            intro hc2
            exact hpid_not (by rw [hp, ← hc2]; exact List.mem_map_of_mem _ hq)
          rw [hhead, htail]
      · have hfp : (p :: players2).find? (fun q => q.id == pid)
            = players2.find? (fun q => q.id == pid) :=
          List.find?_cons_of_neg _ (fun hb => hp (beq_iff_eq.mp hb))
        rw [hfp] at hf
        rcases chart_update_unique c pid nm ts players2 pss2 htl hnd2 hf
          with ⟨j, ps, hj, hget, hnm, hsum, hset⟩
        refine ⟨j + 1, ps, ?_, ?_, hnm, hsum, ?_⟩
        · rw [show (x :: pss2).findIdx? (fun ps => ps.id == pid)
              = List.findIdx? (fun ps => ps.id == pid) (x :: pss2) 0 from rfl,
            List.findIdx?_cons, if_neg (fun hb => hp (hx1 ▸ beq_iff_eq.mp hb)),
            List.findIdx?_succ,
            show List.findIdx? (fun ps => ps.id == pid) pss2 0
              = pss2.findIdx? (fun ps => ps.id == pid) from rfl, hj]
          rfl
        · rw [List.getElem?_cons_succ]
          exact hget
        · intro v2
          rw [show (x :: pss2).set (j + 1) { ps with scores := ps.scores ++ [(ts, v2)] }
              = x :: pss2.set j { ps with scores := ps.scores ++ [(ts, v2)] } from rfl,
            List.map_cons, List.map_cons, hset v2, hx]
          congr 1
          rw [if_neg hp, add_zero]

theorem chartInnerStep_none (ts : Nat) (points : List Int)
    (st : List PSState × List (Nat × List (String × Int))) (ip : Nat × (Nat × Int))
    (hj : st.1.findIdx? (fun ps => ps.id == ip.2.1) = none) :
    chartInnerStep ts points st ip = st := by
  unfold chartInnerStep
  rw [hj]

theorem chartInnerStep_eq (ts : Nat) (points : List Int)
    (st : List PSState × List (Nat × List (String × Int))) (ip : Nat × (Nat × Int))
    (j : Nat) (ps : PSState)
    (hj : st.1.findIdx? (fun ps => ps.id == ip.2.1) = some j)
    (hget : st.1[j]? = some ps) :
    chartInnerStep ts points st ip
      = (st.1.set j { ps with scores := ps.scores ++ [(ts, points.getD ip.1 0)] },
         updateTs st.2 ts ps.name ((ps.scores.map Prod.snd).sum + points.getD ip.1 0)) := by
  unfold chartInnerStep
  rw [hj]
  show (match st.1[j]? with
    | none => st
    | some ps =>
      (st.1.set j { ps with scores := ps.scores ++ [(ts, points.getD ip.1 0)] },
       updateTs st.2 ts ps.name ((ps.scores.map Prod.snd).sum + points.getD ip.1 0)))
    = _
  rw [hget]

/-- The `forEach` over a session's ranking, started with the session's
timestamp already present as the last (fresh) map entry: it appends
exactly the registered participants' name ↦ cumulative-total pairs to that
entry and adds each participant's award to their running sum. -/
theorem chart_inner_fold_present (db : DB) (tsKey : Nat) (points : List Int)
    (hids : (db.players.map (fun p => p.id)).Nodup)
    (hnames : (db.players.map (fun p => p.name)).Nodup) :
    ∀ (l : List (Nat × (Nat × Int))) (c : Nat → Int) (pss : List PSState)
      (m : List (Nat × List (String × Int))) (rec : List (String × Int)),
      (l.map (fun ip => ip.2.1)).Nodup →
      pss.map psKey = db.players.map (fun p => (p.id, p.name, c p.id)) →
      tsKey ∉ m.map Prod.fst →
      (∀ ip ∈ l, ∀ nm, playerName db ip.2.1 = some nm → nm ∉ rec.map Prod.fst) →
      (l.foldl (chartInnerStep tsKey points) (pss, m ++ [(tsKey, rec)])).2
          = m ++ [(tsKey, rec ++ chartVals db c points l)] ∧
      (l.foldl (chartInnerStep tsKey points) (pss, m ++ [(tsKey, rec)])).1.map psKey
        = db.players.map (fun p => (p.id, p.name, c p.id + idxAward p.id points l))
  | [], c, pss, m, rec, _, hkey, _, _ => by
      refine ⟨?_, ?_⟩
      · rw [List.foldl_nil, show chartVals db c points [] = [] from rfl, List.append_nil]
      · rw [List.foldl_nil, hkey]
        apply List.map_congr_left
        intro p _
        rw [show idxAward p.id points [] = 0 from rfl, add_zero]
  | ip :: rest, c, pss, m, rec, hlnd, hkey, hfresh, hrec => by
      obtain ⟨hq, hrestnd⟩ := List.nodup_cons.mp hlnd
      rw [List.foldl_cons]
      cases hpn : playerName db ip.2.1 with
      | none =>
          have hidseq := psKey_ids pss db.players c hkey
          have hnot : ip.2.1 ∉ pss.map (fun ps => ps.id) := by
            rw [hidseq]
            exact (playerName_eq_none db ip.2.1).mp hpn
          have hj : pss.findIdx? (fun ps => ps.id == ip.2.1) = none :=
            findIdx?_eq_none_of_forall _ pss (fun x hx hb =>
              hnot (beq_iff_eq.mp hb ▸ List.mem_map_of_mem (fun ps => ps.id) hx))
          rw [chartInnerStep_none tsKey points (pss, m ++ [(tsKey, rec)]) ip hj]
          have ih := chart_inner_fold_present db tsKey points hids hnames rest c pss m rec
            hrestnd hkey hfresh (fun x hx => hrec x (List.mem_cons_of_mem _ hx))
          have hvals : chartVals db c points (ip :: rest) = chartVals db c points rest := by
            unfold chartVals
            rw [List.filterMap_cons, hpn]
            rfl
          refine ⟨?_, ?_⟩
          · rw [ih.1, hvals]
          · rw [ih.2]
            apply List.map_congr_left
            intro p hp
            have hne : ip.2.1 ≠ p.id := fun hc =>
              (playerName_eq_none db ip.2.1).mp hpn
                (hc ▸ List.mem_map_of_mem (fun q => q.id) hp)
            rw [show idxAward p.id points (ip :: rest)
                = if ip.2.1 = p.id then points.getD ip.1 0 else idxAward p.id points rest
                from rfl, if_neg hne]
      | some nm =>
          rcases chart_update_unique c ip.2.1 nm tsKey db.players pss hkey hids hpn
            with ⟨j, ps, hj, hget, hnm, hsum, hset⟩
          rw [chartInnerStep_eq tsKey points (pss, m ++ [(tsKey, rec)]) ip j ps hj hget]
          have hrecnm : nm ∉ rec.map Prod.fst := hrec ip (List.mem_cons_self _ _) nm hpn
          have hupd : updateTs (m ++ [(tsKey, rec)]) tsKey ps.name
              ((ps.scores.map Prod.snd).sum + points.getD ip.1 0)
              = m ++ [(tsKey, rec ++ [(nm, c ip.2.1 + points.getD ip.1 0)])] := by
            rw [updateTs_present m rec tsKey ps.name _ hfresh, hnm, hsum,
              setStrKey_not_mem rec nm _ hrecnm]
          rw [hupd]
          have hpidne : ∀ x ∈ rest, x.2.1 ≠ ip.2.1 := by
            intro x hx hc
            apply hq
            show ip.2.1 ∈ rest.map (fun y => y.2.1)
            rw [← hc]
            exact List.mem_map_of_mem (fun y => y.2.1) hx
          have ih := chart_inner_fold_present db tsKey points hids hnames rest
            (fun x => c x + (if x = ip.2.1 then points.getD ip.1 0 else 0))
            (pss.set j { ps with scores := ps.scores ++ [(tsKey, points.getD ip.1 0)] })
            m (rec ++ [(nm, c ip.2.1 + points.getD ip.1 0)])
            hrestnd (hset _) hfresh
            (fun x hx nm2 hpn2 => by
              rw [List.map_append, List.mem_append]
              rintro (hcase | hcase)
              · exact hrec x (List.mem_cons_of_mem _ hx) nm2 hpn2 hcase
              · have : nm2 = nm := by
                  rcases List.mem_map.mp hcase with ⟨kv, hkv, hfst⟩
                  rcases List.mem_singleton.mp hkv with hone
                  rw [hone] at hfst
                  exact hfst.symm
                exact playerName_inj db hnames x.2.1 ip.2.1 nm2 nm hpn2 hpn
                  (hpidne x hx) this)
          have hvalscons : chartVals db c points (ip :: rest)
              = (nm, c ip.2.1 + points.getD ip.1 0) :: chartVals db c points rest := by
            unfold chartVals
            rw [List.filterMap_cons, hpn]
            rfl
          have hvalstail : chartVals db
              (fun x => c x + (if x = ip.2.1 then points.getD ip.1 0 else 0)) points rest
              = chartVals db c points rest :=
            chartVals_congr db points _ c rest
              (fun x hx => by rw [if_neg (hpidne x hx), add_zero])
          refine ⟨?_, ?_⟩
          · rw [ih.1, hvalstail, hvalscons, List.append_assoc, List.singleton_append]
          · rw [ih.2]
            apply List.map_congr_left
            intro p hp
            have hbeta : ((fun x => c x + if x = ip.2.1 then points.getD ip.1 0 else 0) p.id)
                = c p.id + (if p.id = ip.2.1 then points.getD ip.1 0 else 0) := rfl
            rw [hbeta, show idxAward p.id points (ip :: rest)
                = if ip.2.1 = p.id then points.getD ip.1 0 else idxAward p.id points rest
                from rfl]
            by_cases hc : p.id = ip.2.1
            · rw [if_pos hc, if_pos hc.symm,
                idxAward_not_mem p.id points rest (fun hmem => by
                  rcases List.mem_map.mp hmem with ⟨x, hx, hxe⟩
                  exact hpidne x hx (hxe.trans hc)), add_zero]
            · rw [if_neg hc, if_neg (fun hcc => hc hcc.symm), add_zero]

/-- The `forEach` over a session's ranking, started with the session's
timestamp absent from the map: it emits one fresh map entry holding the
registered participants' cumulative totals (no entry at all when no
participant is registered) and adds each participant's award to their
running sum. -/
theorem chart_inner_fold_start (db : DB) (tsKey : Nat) (points : List Int)
    (hids : (db.players.map (fun p => p.id)).Nodup)
    (hnames : (db.players.map (fun p => p.name)).Nodup) :
    ∀ (l : List (Nat × (Nat × Int))) (c : Nat → Int) (pss : List PSState)
      (m : List (Nat × List (String × Int))),
      (l.map (fun ip => ip.2.1)).Nodup →
      pss.map psKey = db.players.map (fun p => (p.id, p.name, c p.id)) →
      tsKey ∉ m.map Prod.fst →
      (l.foldl (chartInnerStep tsKey points) (pss, m)).2
          = (if (chartVals db c points l).isEmpty then m
             else m ++ [(tsKey, chartVals db c points l)]) ∧
      (l.foldl (chartInnerStep tsKey points) (pss, m)).1.map psKey
        = db.players.map (fun p => (p.id, p.name, c p.id + idxAward p.id points l))
  | [], c, pss, m, _, hkey, _ => by
      refine ⟨?_, ?_⟩
      · rw [List.foldl_nil]
        rfl
      · rw [List.foldl_nil, hkey]
        apply List.map_congr_left
        intro p _
        rw [show idxAward p.id points [] = 0 from rfl, add_zero]
  | ip :: rest, c, pss, m, hlnd, hkey, hfresh => by
      obtain ⟨hq, hrestnd⟩ := List.nodup_cons.mp hlnd
      rw [List.foldl_cons]
      cases hpn : playerName db ip.2.1 with
      | none =>
          have hidseq := psKey_ids pss db.players c hkey
          have hnot : ip.2.1 ∉ pss.map (fun ps => ps.id) := by
            rw [hidseq]
            exact (playerName_eq_none db ip.2.1).mp hpn
          have hj : pss.findIdx? (fun ps => ps.id == ip.2.1) = none :=
            findIdx?_eq_none_of_forall _ pss (fun x hx hb =>
              hnot (beq_iff_eq.mp hb ▸ List.mem_map_of_mem (fun ps => ps.id) hx))
          rw [chartInnerStep_none tsKey points (pss, m) ip hj]
          have ih := chart_inner_fold_start db tsKey points hids hnames rest c pss m
            hrestnd hkey hfresh
          have hvals : chartVals db c points (ip :: rest) = chartVals db c points rest := by
            unfold chartVals
            rw [List.filterMap_cons, hpn]
            rfl
          refine ⟨?_, ?_⟩
          · rw [ih.1, hvals]
          · rw [ih.2]
            apply List.map_congr_left
            intro p hp
            have hne : ip.2.1 ≠ p.id := fun hc =>
              (playerName_eq_none db ip.2.1).mp hpn
                (hc ▸ List.mem_map_of_mem (fun q => q.id) hp)
            rw [show idxAward p.id points (ip :: rest)
                = if ip.2.1 = p.id then points.getD ip.1 0 else idxAward p.id points rest
                from rfl, if_neg hne]
      | some nm =>
          rcases chart_update_unique c ip.2.1 nm tsKey db.players pss hkey hids hpn
            with ⟨j, ps, hj, hget, hnm, hsum, hset⟩
          rw [chartInnerStep_eq tsKey points (pss, m) ip j ps hj hget]
          have hupd : updateTs m tsKey ps.name
              ((ps.scores.map Prod.snd).sum + points.getD ip.1 0)
              = m ++ [(tsKey, [(nm, c ip.2.1 + points.getD ip.1 0)])] := by
            rw [updateTs_absent m tsKey ps.name _ hfresh, hnm, hsum]
          rw [hupd]
          have hpidne : ∀ x ∈ rest, x.2.1 ≠ ip.2.1 := by
            intro x hx hc
            apply hq
            show ip.2.1 ∈ rest.map (fun y => y.2.1)
            rw [← hc]
            exact List.mem_map_of_mem (fun y => y.2.1) hx
          have ih := chart_inner_fold_present db tsKey points hids hnames rest
            (fun x => c x + (if x = ip.2.1 then points.getD ip.1 0 else 0))
            (pss.set j { ps with scores := ps.scores ++ [(tsKey, points.getD ip.1 0)] })
            m [(nm, c ip.2.1 + points.getD ip.1 0)]
            hrestnd (hset _) hfresh
            (fun x hx nm2 hpn2 => by
              intro hcase
              have : nm2 = nm := by
                rcases List.mem_map.mp hcase with ⟨kv, hkv, hfst⟩
                rcases List.mem_singleton.mp hkv with hone
                rw [hone] at hfst
                exact hfst.symm
              exact playerName_inj db hnames x.2.1 ip.2.1 nm2 nm hpn2 hpn
                (hpidne x hx) this)
          have hvalscons : chartVals db c points (ip :: rest)
              = (nm, c ip.2.1 + points.getD ip.1 0) :: chartVals db c points rest := by
            unfold chartVals
            rw [List.filterMap_cons, hpn]
            rfl
          have hvalstail : chartVals db
              (fun x => c x + (if x = ip.2.1 then points.getD ip.1 0 else 0)) points rest
              = chartVals db c points rest :=
            chartVals_congr db points _ c rest
              (fun x hx => by rw [if_neg (hpidne x hx), add_zero])
          refine ⟨?_, ?_⟩
          · rw [ih.1, hvalstail, hvalscons, List.isEmpty_cons,
              if_neg Bool.false_ne_true, List.singleton_append]
          · rw [ih.2]
            apply List.map_congr_left
            intro p hp
            have hbeta : ((fun x => c x + if x = ip.2.1 then points.getD ip.1 0 else 0) p.id)
                = c p.id + (if p.id = ip.2.1 then points.getD ip.1 0 else 0) := rfl
            rw [hbeta, show idxAward p.id points (ip :: rest)
                = if ip.2.1 = p.id then points.getD ip.1 0 else idxAward p.id points rest
                from rfl]
            by_cases hc : p.id = ip.2.1
            · rw [if_pos hc, if_pos hc.symm,
                idxAward_not_mem p.id points rest (fun hmem => by
                  rcases List.mem_map.mp hmem with ⟨x, hx, hxe⟩
                  exact hpidne x hx (hxe.trans hc)), add_zero]
            · rw [if_neg hc, if_neg (fun hcc => hc hcc.symm), add_zero]

/-- The chart's table loop emits exactly the points of the specification
recursion `chartSpecGo`, appended to whatever map it started from. -/
theorem chart_table_fold (db : DB)
    (hids : (db.players.map (fun p => p.id)).Nodup)
    (hnames : (db.players.map (fun p => p.name)).Nodup) :
    ∀ (ts : List TableRow) (c : Nat → Int) (pss : List PSState)
      (m : List (Nat × List (String × Int))),
      pss.map psKey = db.players.map (fun p => (p.id, p.name, c p.id)) →
      (∀ t ∈ ts, t.createdAt ∉ m.map Prod.fst) →
      (ts.map (fun t => t.createdAt)).Nodup →
      (ts.foldl (processChartTable db) (pss, m)).2 = m ++ chartSpecGo db c ts
  | [], c, pss, m, _, _, _ => by
      rw [List.foldl_nil, show chartSpecGo db c [] = [] from rfl, List.append_nil]
  | t :: ts2, c, pss, m, hkey, hfresh, hnd => by
      obtain ⟨htnd, hnd2⟩ := List.nodup_cons.mp hnd
      rw [List.foldl_cons]
      by_cases hre : (roundsOfTable db t.id).isEmpty
      · have hstep : processChartTable db (pss, m) t = (pss, m) := by
          unfold processChartTable
          rw [if_pos hre]
        rw [hstep]
        have hspec : chartSpecGo db c (t :: ts2) = chartSpecGo db c ts2 := by
          simp only [chartSpecGo]
          rw [if_pos hre]
        rw [hspec]
        exact chart_table_fold db hids hnames ts2 c pss m hkey
          (fun x hx => hfresh x (List.mem_cons_of_mem _ hx)) hnd2
      · have hstep : processChartTable db (pss, m) t
            = (enumIdx 0 (rankedOf (scoresOfRounds db
                ((roundsOfTable db t.id).map (fun r => r.id))))).foldl
              (chartInnerStep t.createdAt
                (getPointsDistribution (rankedOf (scoresOfRounds db
                  ((roundsOfTable db t.id).map (fun r => r.id)))).length))
              (pss, m) := by
          unfold processChartTable
          rw [if_neg hre]
        rw [hstep]
        have hlnd : (((enumIdx 0 (rankedOf (scoresOfRounds db
            ((roundsOfTable db t.id).map (fun r => r.id))))).map
              (fun ip => ip.2.1))).Nodup := by
          rw [enumIdx_map_pid]
          exact rankedOf_keys_nodup _
        have hfr : t.createdAt ∉ m.map Prod.fst := hfresh t (List.mem_cons_self _ _)
        have hB := chart_inner_fold_start db t.createdAt
          (getPointsDistribution (rankedOf (scoresOfRounds db
            ((roundsOfTable db t.id).map (fun r => r.id)))).length)
          hids hnames
          (enumIdx 0 (rankedOf (scoresOfRounds db
            ((roundsOfTable db t.id).map (fun r => r.id)))))
          c pss m hlnd hkey hfr
        have hfresh2 : ∀ x ∈ ts2, x.createdAt ∉
            (((enumIdx 0 (rankedOf (scoresOfRounds db
                ((roundsOfTable db t.id).map (fun r => r.id))))).foldl
              (chartInnerStep t.createdAt
                (getPointsDistribution (rankedOf (scoresOfRounds db
                  ((roundsOfTable db t.id).map (fun r => r.id)))).length))
              (pss, m)).2).map Prod.fst := by
          intro x hx
          rw [hB.1]
          have hxne : x.createdAt ≠ t.createdAt := by
            intro hc
            apply htnd
            show t.createdAt ∈ ts2.map (fun y => y.createdAt)
            rw [← hc]
            exact List.mem_map_of_mem (fun y => y.createdAt) hx
          have hxm : x.createdAt ∉ m.map Prod.fst :=
            hfresh x (List.mem_cons_of_mem _ hx)
          by_cases hv : (chartVals db c
              (getPointsDistribution (rankedOf (scoresOfRounds db
                ((roundsOfTable db t.id).map (fun r => r.id)))).length)
              (enumIdx 0 (rankedOf (scoresOfRounds db
                ((roundsOfTable db t.id).map (fun r => r.id)))))).isEmpty
          · rw [if_pos hv]
            exact hxm
          · rw [if_neg hv, List.map_append, List.mem_append]
            rintro (hcase | hcase)
            · exact hxm hcase
            · rcases List.mem_map.mp hcase with ⟨kv, hkv, hfst⟩
              rcases List.mem_singleton.mp hkv with hone
              rw [hone] at hfst
              exact hxne hfst.symm
        have hih := chart_table_fold db hids hnames ts2
          (fun pid => c pid + idxAward pid
            (getPointsDistribution (rankedOf (scoresOfRounds db
              ((roundsOfTable db t.id).map (fun r => r.id)))).length)
            (enumIdx 0 (rankedOf (scoresOfRounds db
              ((roundsOfTable db t.id).map (fun r => r.id))))))
          _ _ hB.2 hfresh2 hnd2
        rw [show ((enumIdx 0 (rankedOf (scoresOfRounds db
              ((roundsOfTable db t.id).map (fun r => r.id))))).foldl
              (chartInnerStep t.createdAt
                (getPointsDistribution (rankedOf (scoresOfRounds db
                  ((roundsOfTable db t.id).map (fun r => r.id)))).length))
              (pss, m))
            = (((enumIdx 0 (rankedOf (scoresOfRounds db
              ((roundsOfTable db t.id).map (fun r => r.id))))).foldl
              (chartInnerStep t.createdAt
                (getPointsDistribution (rankedOf (scoresOfRounds db
                  ((roundsOfTable db t.id).map (fun r => r.id)))).length))
              (pss, m)).1,
              ((enumIdx 0 (rankedOf (scoresOfRounds db
              ((roundsOfTable db t.id).map (fun r => r.id))))).foldl
              (chartInnerStep t.createdAt
                (getPointsDistribution (rankedOf (scoresOfRounds db
                  ((roundsOfTable db t.id).map (fun r => r.id)))).length))
              (pss, m)).2) from rfl, hih, hB.1]
        have hspec : chartSpecGo db c (t :: ts2)
            = (if (chartVals db c
                (getPointsDistribution (rankedOf (scoresOfRounds db
                  ((roundsOfTable db t.id).map (fun r => r.id)))).length)
                (enumIdx 0 (rankedOf (scoresOfRounds db
                  ((roundsOfTable db t.id).map (fun r => r.id)))))).isEmpty
              then chartSpecGo db
                (fun pid => c pid + idxAward pid
                  (getPointsDistribution (rankedOf (scoresOfRounds db
                    ((roundsOfTable db t.id).map (fun r => r.id)))).length)
                  (enumIdx 0 (rankedOf (scoresOfRounds db
                    ((roundsOfTable db t.id).map (fun r => r.id)))))) ts2
              else (t.createdAt, chartVals db c
                (getPointsDistribution (rankedOf (scoresOfRounds db
                  ((roundsOfTable db t.id).map (fun r => r.id)))).length)
                (enumIdx 0 (rankedOf (scoresOfRounds db
                  ((roundsOfTable db t.id).map (fun r => r.id)))))) ::
                chartSpecGo db
                  (fun pid => c pid + idxAward pid
                    (getPointsDistribution (rankedOf (scoresOfRounds db
                      ((roundsOfTable db t.id).map (fun r => r.id)))).length)
                    (enumIdx 0 (rankedOf (scoresOfRounds db
                      ((roundsOfTable db t.id).map (fun r => r.id)))))) ts2) := by
          simp only [chartSpecGo]
          rw [if_neg hre]
        rw [hspec]
        by_cases hv : (chartVals db c
            (getPointsDistribution (rankedOf (scoresOfRounds db
              ((roundsOfTable db t.id).map (fun r => r.id)))).length)
            (enumIdx 0 (rankedOf (scoresOfRounds db
              ((roundsOfTable db t.id).map (fun r => r.id)))))).isEmpty
        · rw [if_pos hv, if_pos hv]
        · rw [if_neg hv, if_neg hv, List.append_assoc, List.singleton_append]

theorem insertBy_pairwise (before : α → α → Bool)
    (htot : ∀ a b, before a b = true ∨ before b a = true)
    (htrans : ∀ a b c2, before a b = true → before b c2 = true → before a c2 = true) :
    ∀ (l : List α) (x : α), l.Pairwise (fun a b => before a b = true) →
      (insertBy before x l).Pairwise (fun a b => before a b = true)
  | [], x, _ => by
      unfold insertBy
      exact List.pairwise_singleton _ x
  | y :: ys, x, h => by
      unfold insertBy
      rcases List.pairwise_cons.mp h with ⟨hy, hys⟩
      by_cases hxy : before x y = true
      · rw [if_pos hxy]
        refine List.pairwise_cons.mpr ⟨?_, h⟩
        intro b hb
        rcases List.mem_cons.mp hb with hbe | hbm
        · rw [hbe]
          exact hxy
        · exact htrans x y b hxy (hy b hbm)
      · rw [if_neg hxy]
        refine List.pairwise_cons.mpr ⟨?_, insertBy_pairwise before htot htrans ys x hys⟩
        intro b hb
        have hmem := (insertBy_perm before x ys).mem_iff.mp hb
        rcases List.mem_cons.mp hmem with hbe | hbys
        · rw [hbe]
          exact (htot x y).resolve_left hxy
        · exact hy b hbys

theorem stableSort_pairwise (before : α → α → Bool)
    (htot : ∀ a b, before a b = true ∨ before b a = true)
    (htrans : ∀ a b c2, before a b = true → before b c2 = true → before a c2 = true) :
    ∀ l : List α, (stableSort before l).Pairwise (fun a b => before a b = true)
  | [] => List.Pairwise.nil
  | x :: xs => by
      unfold stableSort
      exact insertBy_pairwise before htot htrans (stableSort before xs) x
        (stableSort_pairwise before htot htrans xs)

theorem chartSpecGo_keys_sublist (db : DB) :
    ∀ (c : Nat → Int) (ts : List TableRow),
      ((chartSpecGo db c ts).map Prod.fst).Sublist (ts.map (fun t => t.createdAt))
  | _, [] => List.nil_sublist _
  | c, t :: ts2 => by
      simp only [chartSpecGo]
      by_cases hre : (roundsOfTable db t.id).isEmpty
      · rw [if_pos hre, List.map_cons]
        exact (chartSpecGo_keys_sublist db c ts2).cons _
      · rw [if_neg hre]
        by_cases hv : (chartVals db c
            (getPointsDistribution (rankedOf (scoresOfRounds db
              ((roundsOfTable db t.id).map (fun r => r.id)))).length)
            (enumIdx 0 (rankedOf (scoresOfRounds db
              ((roundsOfTable db t.id).map (fun r => r.id)))))).isEmpty
        · rw [if_pos hv, List.map_cons]
          exact (chartSpecGo_keys_sublist db _ ts2).cons _
        · rw [if_neg hv, List.map_cons, List.map_cons]
          exact List.Sublist.cons₂ _ (chartSpecGo_keys_sublist db _ ts2)

theorem chartSpecGo_mem (db : DB) :
    ∀ (c : Nat → Int) (ts : List TableRow) (pt : Nat × List (String × Int)),
      pt ∈ chartSpecGo db c ts →
      ∃ t, t ∈ ts ∧ pt.1 = t.createdAt ∧ ¬(roundsOfTable db t.id).isEmpty = true ∧
        ∀ kv ∈ pt.2, ∃ pid, pid ∈ sessionParticipants db t ∧ playerName db pid = some kv.1
  | c, [], pt, h =>
      absurd (by rw [show chartSpecGo db c [] = [] from rfl] at h; exact h)
        (List.not_mem_nil pt)
  | c, t :: ts2, pt, h => by
      rw [show chartSpecGo db c (t :: ts2)
          = (if (roundsOfTable db t.id).isEmpty then chartSpecGo db c ts2
            else
              (if (chartVals db c
                  (getPointsDistribution (rankedOf (scoresOfRounds db
                    ((roundsOfTable db t.id).map (fun r => r.id)))).length)
                  (enumIdx 0 (rankedOf (scoresOfRounds db
                    ((roundsOfTable db t.id).map (fun r => r.id)))))).isEmpty
                then chartSpecGo db
                  (fun pid => c pid + idxAward pid
                    (getPointsDistribution (rankedOf (scoresOfRounds db
                      ((roundsOfTable db t.id).map (fun r => r.id)))).length)
                    (enumIdx 0 (rankedOf (scoresOfRounds db
                      ((roundsOfTable db t.id).map (fun r => r.id)))))) ts2
                else (t.createdAt, chartVals db c
                    (getPointsDistribution (rankedOf (scoresOfRounds db
                      ((roundsOfTable db t.id).map (fun r => r.id)))).length)
                    (enumIdx 0 (rankedOf (scoresOfRounds db
                      ((roundsOfTable db t.id).map (fun r => r.id)))))) ::
                  chartSpecGo db
                    (fun pid => c pid + idxAward pid
                      (getPointsDistribution (rankedOf (scoresOfRounds db
                        ((roundsOfTable db t.id).map (fun r => r.id)))).length)
                      (enumIdx 0 (rankedOf (scoresOfRounds db
                        ((roundsOfTable db t.id).map (fun r => r.id)))))) ts2))
          from by simp only [chartSpecGo]] at h
      by_cases hre : (roundsOfTable db t.id).isEmpty
      · rw [if_pos hre] at h
        rcases chartSpecGo_mem db c ts2 pt h with ⟨t2, ht2, hrest⟩
        exact ⟨t2, List.mem_cons_of_mem _ ht2, hrest⟩
      · rw [if_neg hre] at h
        by_cases hv : (chartVals db c
            (getPointsDistribution (rankedOf (scoresOfRounds db
              ((roundsOfTable db t.id).map (fun r => r.id)))).length)
            (enumIdx 0 (rankedOf (scoresOfRounds db
              ((roundsOfTable db t.id).map (fun r => r.id)))))).isEmpty
        · rw [if_pos hv] at h
          rcases chartSpecGo_mem db _ ts2 pt h with ⟨t2, ht2, hrest⟩
          exact ⟨t2, List.mem_cons_of_mem _ ht2, hrest⟩
        · rw [if_neg hv] at h
          rcases List.mem_cons.mp h with hhd | htl
          · refine ⟨t, List.mem_cons_self _ _, ?_, hre, ?_⟩
            · rw [hhd]
            · intro kv hkv
              rw [hhd] at hkv
              have hkv2 : kv ∈ chartVals db c
                  (getPointsDistribution (rankedOf (scoresOfRounds db
                    ((roundsOfTable db t.id).map (fun r => r.id)))).length)
                  (enumIdx 0 (rankedOf (scoresOfRounds db
                    ((roundsOfTable db t.id).map (fun r => r.id))))) := hkv
              unfold chartVals at hkv2
              rcases List.mem_filterMap.mp hkv2 with ⟨ip, hip, hf⟩
              rcases Option.map_eq_some'.mp hf with ⟨nm, hpn, hkve⟩
              refine ⟨ip.2.1, ?_, ?_⟩
              · have hmem : ip.2 ∈ rankedOf (scoresOfRounds db
                    ((roundsOfTable db t.id).map (fun r => r.id))) :=
                  enumIdx_mem 0 _ ip hip
                have hmem2 : ip.2.1 ∈ (rankedOf (scoresOfRounds db
                    ((roundsOfTable db t.id).map (fun r => r.id)))).map Prod.fst :=
                  List.mem_map_of_mem Prod.fst hmem
                exact (rankedOf_keys_mem _ _).mp hmem2
              · rw [← hkve] at *
                exact hpn
          · rcases chartSpecGo_mem db _ ts2 pt htl with ⟨t2, ht2, hrest⟩
            exact ⟨t2, List.mem_cons_of_mem _ ht2, hrest⟩

/-- C4 amended: each emitted data point is keyed by one selected session's
timestamp and holds the cumulative totals of exactly that session's
registered scored participants (ranking order, cumulative — not the
delta); players without a score row in the session are absent from the
point.  Stated as a refinement: the built chart equals the specification
recursion `chartSpecGo`, and every point's keys name participants of its
session. -/
theorem claim4_participant_snapshot (db : DB) (startDate endDate : Nat)
    (hids : (db.players.map (fun p => p.id)).Nodup)
    (hnames : (db.players.map (fun p => p.name)).Nodup)
    (hts : ((chartSelectTables db startDate endDate).map (fun t => t.createdAt)).Nodup) :
    (loadChartDataPure db startDate endDate).1
        = chartSpecGo db (fun _ => 0) (chartSelectTables db startDate endDate) ∧
    ∀ pt ∈ (loadChartDataPure db startDate endDate).1,
      ∃ t, t ∈ chartSelectTables db startDate endDate ∧ pt.1 = t.createdAt ∧
        ¬(roundsOfTable db t.id).isEmpty = true ∧
        ∀ kv ∈ pt.2, ∃ pid, pid ∈ sessionParticipants db t ∧
          playerName db pid = some kv.1 := by
  have hkey0 : (initPlayerScores db).map psKey
      = db.players.map (fun p => (p.id, p.name, (fun _ : Nat => (0 : Int)) p.id)) := by
    unfold initPlayerScores psKey
    rw [List.map_map]
    rfl
  have hfold := chart_table_fold db hids hnames (chartSelectTables db startDate endDate)
    (fun _ => 0) (initPlayerScores db) [] hkey0 (fun t _ => by simp) hts
  have heq : (loadChartDataPure db startDate endDate).1
      = chartSpecGo db (fun _ => 0) (chartSelectTables db startDate endDate) := by
    show stableSort (fun a b => decide (a.1 ≤ b.1))
        (((chartSelectTables db startDate endDate).foldl (processChartTable db)
          (initPlayerScores db, [])).2)
      = _
    rw [hfold, List.nil_append]
    apply stableSort_of_pairwise
    have htotT : ∀ a b : TableRow,
        (decide (a.createdAt ≤ b.createdAt)) = true ∨
        (decide (b.createdAt ≤ a.createdAt)) = true :=
      fun a b => (Nat.le_total a.createdAt b.createdAt).imp decide_eq_true decide_eq_true
    have htransT : ∀ a b c2 : TableRow, (decide (a.createdAt ≤ b.createdAt)) = true →
        (decide (b.createdAt ≤ c2.createdAt)) = true →
        (decide (a.createdAt ≤ c2.createdAt)) = true := fun a b c2 h1 h2 =>
      decide_eq_true (Nat.le_trans (of_decide_eq_true h1) (of_decide_eq_true h2))
    have hsorted : (chartSelectTables db startDate endDate).Pairwise
        (fun a b => (decide (a.createdAt ≤ b.createdAt)) = true) :=
      stableSort_pairwise _ htotT htransT _
    have hkeysPair : ((chartSelectTables db startDate endDate).map
        (fun t => t.createdAt)).Pairwise (fun a b => a ≤ b) :=
      List.pairwise_map.mpr (hsorted.imp (fun h => of_decide_eq_true h))
    have hspecPair := List.Pairwise.sublist
      (chartSpecGo_keys_sublist db (fun _ => 0)
        (chartSelectTables db startDate endDate)) hkeysPair
    exact (List.pairwise_map.mp hspecPair).imp (fun h => decide_eq_true h)
  refine ⟨heq, ?_⟩
  intro pt hpt
  rw [heq] at hpt
  exact chartSpecGo_mem db _ _ pt hpt

/-- Witness for C4's amended theorem at the counterexample database. -/
theorem claim4_participant_snapshot_witness :
    (loadChartDataPure exDB4 202509010000 202604302359).1
      = chartSpecGo exDB4 (fun _ => 0)
          (chartSelectTables exDB4 202509010000 202604302359) :=
  (claim4_participant_snapshot exDB4 202509010000 202604302359
    (by decide) (by decide) (by decide)).1
